import Mathlib

/-!
Shallow embedding of the betteroms execution-and-position core:
the paper executor (fill simulation and per-trade execution), the executor
repository (orders, executions, position aggregation, the order+execution
transaction), the position calculator (SELL gating), the executor service
(per-plan sequential routing, fail-fast), and the trade-runner service
(idempotency, execution history lifecycle, run summary).

Numbers are modelled as exact rationals. The external market-data adapter is
modelled as a function from a market token id to an order-book snapshot.
Database state is explicit: lists of order rows, execution (fill) rows and
execution-history rows, passed through every operation. Database transactions
are atomic by construction; a transaction that fails mid-way restores the
pre-transaction state, mirroring the rollback semantics of the store.
Timestamps are omitted: no verified property observes them.
-/

namespace BetterOMS

/-- Outcome label of a prediction market token (trade-plan.schema). -/
inductive Outcome
  | yes
  | no
  deriving DecidableEq, Repr

/-- Order side (trade-plan.schema). -/
inductive Side
  | buy
  | sell
  deriving DecidableEq, Repr

/-- Order kind (trade-plan.schema). -/
inductive OrderType
  | market
  | limit
  deriving DecidableEq, Repr

/-- Execution mode (trade-plan.schema). -/
inductive Mode
  | paper
  | live
  deriving DecidableEq, Repr

/-- Order status enum from the orders table schema. -/
inductive OrderStatus
  | open'
  | filled
  | partiallyFilled
  | cancelled
  | failed
  deriving DecidableEq, Repr

/-- Execution-history lifecycle status (execution_history table schema). -/
inductive HistoryStatus
  | running
  | completed
  | failed
  deriving DecidableEq, Repr

/-- One trade intent of a validated plan (TradeSchema). -/
structure Trade where
  marketTokenId : String
  outcome : Outcome
  side : Side
  orderType : OrderType
  size : Rat
  price : Option Rat
  deriving DecidableEq, Repr

/-- A validated trade plan (TradePlanSchema). -/
structure TradePlan where
  planId : String
  mode : Mode
  trades : List Trade
  deriving DecidableEq, Repr

/-- One price level of an order-book snapshot, best level first in the lists. -/
structure BookLevel where
  price : Rat
  size : Rat
  deriving DecidableEq, Repr

/-- Order-book snapshot returned by the market-data adapter. -/
structure OrderBook where
  bids : List BookLevel
  asks : List BookLevel
  deriving DecidableEq, Repr

/-- A persisted order row (orders table). -/
structure OrderRow where
  id : Nat
  planId : String
  marketTokenId : String
  outcome : Outcome
  side : Side
  orderType : OrderType
  size : Rat
  price : Option Rat
  status : OrderStatus
  mode : Mode
  deriving DecidableEq, Repr

/-- A persisted execution (fill) row (executions table). -/
structure ExecutionRow where
  id : Nat
  orderId : Nat
  quantity : Rat
  price : Rat
  deriving DecidableEq, Repr

/-- Derived position for one market token + outcome + mode
(ExecutorRepository.calculatePosition result). -/
structure Position where
  marketTokenId : String
  outcome : Outcome
  netQuantity : Rat
  avgPrice : Rat
  realizedPnL : Rat
  deriving DecidableEq, Repr

/-- The distinct ExecutionError conditions raised by the core, keyed by the
data their messages carry. -/
inductive ExecErr
  | duplicatePlan (planId : String)
  | liveNotSupported
  | limitPriceMissing
  | noAsks (marketTokenId : String)
  | noBids (marketTokenId : String)
  | invalidPrice (price : Rat)
  | noPosition (marketTokenId : String)
  | insufficientPosition (required available : Rat)
  deriving DecidableEq, Repr

/-- The two SELL-gating failures both surface as the insufficient-position
error family of the spec taxonomy. -/
def ExecErr.isInsufficientPosition : ExecErr → Bool
  | .noPosition _ => true
  | .insufficientPosition _ _ => true
  | _ => false

/-- One position entry of a run summary (trade-runner types). -/
structure SummaryPosition where
  marketTokenId : String
  outcome : Outcome
  netQuantity : Rat
  avgPrice : Rat
  totalCost : Rat
  realizedPnL : Rat
  deriving DecidableEq, Repr

/-- Run summary assembled by the trade runner on success. -/
structure RunSummary where
  planId : String
  mode : Mode
  ordersPlaced : Nat
  ordersFilled : Nat
  ordersPartiallyFilled : Nat
  ordersFailed : Nat
  totalPnL : Rat
  positions : List SummaryPosition
  deriving DecidableEq, Repr

/-- A persisted execution-history row (execution_history table; plan_id is the
primary key / idempotency key). -/
structure HistoryRow where
  planId : String
  planJson : TradePlan
  status : HistoryStatus
  summaryJson : Option RunSummary
  errorMessage : Option ExecErr
  deriving DecidableEq, Repr

/-- The whole persistent state: the three tables plus id counters standing in
for generated primary keys. -/
structure DB where
  orders : List OrderRow
  executions : List ExecutionRow
  history : List HistoryRow
  nextOrderId : Nat
  nextExecutionId : Nat
  deriving DecidableEq, Repr

/-- The empty database. -/
def DB.empty : DB :=
  { orders := [], executions := [], history := [], nextOrderId := 0, nextExecutionId := 0 }

/-! ## ExecutorRepository: orders, executions, transaction, position query -/

/-- Insert payload for an order (NewOrder). -/
structure NewOrderData where
  planId : String
  marketTokenId : String
  outcome : Outcome
  side : Side
  orderType : OrderType
  size : Rat
  price : Option Rat
  status : OrderStatus
  mode : Mode
  deriving DecidableEq, Repr

/-- Insert payload for an execution row, the order id supplied separately
(Omit NewExecution orderId). -/
structure NewExecutionData where
  quantity : Rat
  price : Rat
  deriving DecidableEq, Repr

/-- ExecutorRepository.createOrder: insert one order row, returning it. -/
def createOrder (db : DB) (d : NewOrderData) : DB × OrderRow :=
  let o : OrderRow :=
    { id := db.nextOrderId, planId := d.planId, marketTokenId := d.marketTokenId,
      outcome := d.outcome, side := d.side, orderType := d.orderType,
      size := d.size, price := d.price, status := d.status, mode := d.mode }
  ({ db with orders := db.orders ++ [o], nextOrderId := db.nextOrderId + 1 }, o)

/-- ExecutorRepository.updateOrderStatus. -/
def updateOrderStatus (db : DB) (orderId : Nat) (st : OrderStatus) : DB :=
  { db with orders := db.orders.map fun o => if o.id = orderId then { o with status := st } else o }

/-- ExecutorRepository.getOrdersByPlanId. -/
def getOrdersByPlanId (db : DB) (planId : String) : List OrderRow :=
  db.orders.filter fun o => o.planId = planId

/-- ExecutorRepository.getExecutionsByOrderId. -/
def getExecutionsByOrderId (db : DB) (orderId : Nat) : List ExecutionRow :=
  db.executions.filter fun e => e.orderId = orderId

/-- ExecutorRepository.executeTradeTransaction, success path: inside one
transaction, insert the order with status open, insert the execution linked to
it, then update the order status to filled. Returns the order row as captured
at insertion time together with the execution row, as the source does. -/
def executeTradeTransaction (db : DB) (od : NewOrderData) (ed : NewExecutionData) :
    DB × OrderRow × ExecutionRow :=
  let (db1, o) := createOrder db { od with status := .open' }
  let e : ExecutionRow :=
    { id := db1.nextExecutionId, orderId := o.id, quantity := ed.quantity, price := ed.price }
  let db2 := { db1 with executions := db1.executions ++ [e],
                        nextExecutionId := db1.nextExecutionId + 1 }
  (updateOrderStatus db2 o.id .filled, o, e)

/-- The three statements of the order+execution transaction, as failure
injection points. -/
inductive TxStep
  | insertOrder
  | insertExecution
  | updateStatus
  deriving DecidableEq, Repr

/-- ExecutorRepository.executeTradeTransaction with an injected failure point:
a database failure at any of the three statements aborts the enclosing
transaction, which rolls every statement back, leaving the pre-transaction
state; with no failure it is the success path. -/
def executeTradeTransactionTx (db : DB) (od : NewOrderData) (ed : NewExecutionData)
    (failAt : Option TxStep) : DB × Option (OrderRow × ExecutionRow) :=
  match failAt with
  | some _ => (db, none)
  | none =>
    let (db1, o, e) := executeTradeTransaction db od ed
    (db1, some (o, e))

/-- One row of the executions-joined-to-orders selection used by
calculatePosition: the owning order side with the execution quantity and
price. -/
structure PosRow where
  side : Side
  quantity : Rat
  price : Rat
  deriving DecidableEq, Repr

/-- The join of calculatePosition: executions inner-joined to their orders,
filtered by market token id, outcome and mode. -/
def positionRows (db : DB) (marketTokenId : String) (outcome : Outcome) (mode : Mode) :
    List PosRow :=
  db.executions.filterMap fun e =>
    match db.orders.find? fun o => o.id = e.orderId with
    | some o =>
      if o.marketTokenId = marketTokenId ∧ o.outcome = outcome ∧ o.mode = mode then
        some { side := o.side, quantity := e.quantity, price := e.price }
      else none
    | none => none

/-- The four running accumulators of the calculatePosition loop. -/
structure PosAccum where
  buyQuantity : Rat
  buyTotal : Rat
  sellQuantity : Rat
  sellTotal : Rat
  deriving DecidableEq, Repr

/-- One iteration of the calculatePosition loop over joined rows. -/
def posAccumStep (a : PosAccum) (r : PosRow) : PosAccum :=
  match r.side with
  | .buy => { a with buyQuantity := a.buyQuantity + r.quantity,
                     buyTotal := a.buyTotal + r.quantity * r.price }
  | .sell => { a with sellQuantity := a.sellQuantity + r.quantity,
                      sellTotal := a.sellTotal + r.quantity * r.price }

/-- The arithmetic of ExecutorRepository.calculatePosition on the joined rows:
returns none when no rows exist; otherwise net quantity, weighted average
price (buy side if net long or flat with buys, sell side if net short) and
realized profit on the closed quantity. -/
def positionFromRows (marketTokenId : String) (outcome : Outcome) (rows : List PosRow) :
    Option Position :=
  if rows = [] then none
  else
    let a := rows.foldl posAccumStep ⟨0, 0, 0, 0⟩
    let netQuantity := a.buyQuantity - a.sellQuantity
    let avgPrice :=
      if netQuantity ≠ 0 then
        (if netQuantity > 0 then a.buyTotal / a.buyQuantity else a.sellTotal / a.sellQuantity)
      else
        (if a.buyQuantity > 0 then a.buyTotal / a.buyQuantity else 0)
    let closedQuantity := min a.buyQuantity a.sellQuantity
    let realizedPnL :=
      if closedQuantity > 0 then a.sellTotal - a.buyTotal * (closedQuantity / a.buyQuantity)
      else 0
    some { marketTokenId := marketTokenId, outcome := outcome,
           netQuantity := netQuantity, avgPrice := avgPrice, realizedPnL := realizedPnL }

/-- ExecutorRepository.calculatePosition. -/
def calculatePosition (db : DB) (marketTokenId : String) (outcome : Outcome) (mode : Mode) :
    Option Position :=
  positionFromRows marketTokenId outcome (positionRows db marketTokenId outcome mode)

/-! ## Position calculator: SELL gating -/

/-- Result of validateSellPosition: validity flag, the currently available
net quantity, and the failure it reports when invalid. -/
structure SellValidation where
  valid : Bool
  currentQuantity : Rat
  message : Option ExecErr
  deriving DecidableEq, Repr

/-- position-calculator validateSellPosition: delegates to calculatePosition;
invalid when no position exists, the net quantity is not positive, or the net
quantity is below the required quantity. -/
def validateSellPosition (db : DB) (marketTokenId : String) (outcome : Outcome) (mode : Mode)
    (requiredQuantity : Rat) : SellValidation :=
  match calculatePosition db marketTokenId outcome mode with
  | none => { valid := false, currentQuantity := 0, message := some (.noPosition marketTokenId) }
  | some p =>
    if p.netQuantity ≤ 0 then
      { valid := false, currentQuantity := p.netQuantity,
        message := some (.noPosition marketTokenId) }
    else if p.netQuantity < requiredQuantity then
      { valid := false, currentQuantity := p.netQuantity,
        message := some (.insufficientPosition requiredQuantity p.netQuantity) }
    else
      { valid := true, currentQuantity := p.netQuantity, message := none }

/-! ## PaperExecutor -/

/-- The market-data adapter, as a pure snapshot source keyed by market token
id: getOrderBook. -/
def Market : Type := String → OrderBook

/-- Outcome of a fill simulation: the fill price and the token quantity. -/
structure FillSimulation where
  fillPrice : Rat
  quantity : Rat
  deriving DecidableEq, Repr

/-- PaperExecutor.simulateMarketOrderFill: BUY fills at the best ask, SELL at
the best bid; an empty opposing side raises no-liquidity; a fill price outside
the open interval (0,1) raises invalid-price; quantity is size divided by the
fill price. -/
def simulateMarketOrderFill (market : Market) (t : Trade) : Except ExecErr FillSimulation :=
  let book := market t.marketTokenId
  match t.side with
  | .buy =>
    match book.asks with
    | [] => .error (.noAsks t.marketTokenId)
    | l :: _ =>
      if l.price ≤ 0 ∨ l.price ≥ 1 then .error (.invalidPrice l.price)
      else .ok { fillPrice := l.price, quantity := t.size / l.price }
  | .sell =>
    match book.bids with
    | [] => .error (.noBids t.marketTokenId)
    | l :: _ =>
      if l.price ≤ 0 ∨ l.price ≥ 1 then .error (.invalidPrice l.price)
      else .ok { fillPrice := l.price, quantity := t.size / l.price }

/-- PaperExecutor.simulateLimitOrderFill: a BUY crosses when the limit price
is at least the best ask, a SELL when the limit price is at most the best bid,
and then fills at that opposing top-of-book price; a non-crossing order yields
none (stays open); an empty opposing side raises no-liquidity; a crossing SELL
is additionally gated on the available position (paper mode), raising the
position failure reported by validateSellPosition. -/
def simulateLimitOrderFill (market : Market) (db : DB) (t : Trade) :
    Except ExecErr (Option FillSimulation) :=
  match t.price with
  | none => .error .limitPriceMissing
  | some limitPrice =>
    let book := market t.marketTokenId
    let crossed : Except ExecErr (Option Rat) :=
      match t.side with
      | .buy =>
        match book.asks with
        | [] => .error (.noAsks t.marketTokenId)
        | l :: _ => if limitPrice ≥ l.price then .ok (some l.price) else .ok none
      | .sell =>
        match book.bids with
        | [] => .error (.noBids t.marketTokenId)
        | l :: _ => if limitPrice ≤ l.price then .ok (some l.price) else .ok none
    match crossed with
    | .error e => .error e
    | .ok none => .ok none
    | .ok (some fillPrice) =>
      if fillPrice ≤ 0 ∨ fillPrice ≥ 1 then .error (.invalidPrice fillPrice)
      else
        let gate : Except ExecErr Unit :=
          if t.side = .sell then
            let requiredQuantity := t.size / fillPrice
            let v := validateSellPosition db t.marketTokenId t.outcome .paper requiredQuantity
            if v.valid then .ok ()
            else .error (v.message.getD (.insufficientPosition requiredQuantity v.currentQuantity))
          else .ok ()
        match gate with
        | .error e => .error e
        | .ok _ => .ok (some { fillPrice := fillPrice, quantity := t.size / fillPrice })

/-- PaperExecutor.validateSellOrder: fetch the order book, estimate the
required quantity from the best bid, and gate on the available position. -/
def validateSellOrder (market : Market) (db : DB) (t : Trade) : Except ExecErr Unit :=
  let book := market t.marketTokenId
  match book.bids with
  | [] => .error (.noBids t.marketTokenId)
  | l :: _ =>
    let requiredQuantity := t.size / l.price
    let v := validateSellPosition db t.marketTokenId t.outcome .paper requiredQuantity
    if v.valid then .ok ()
    else .error (v.message.getD (.insufficientPosition requiredQuantity v.currentQuantity))

/-- Per-trade execution result returned by the executors. -/
structure ExecutionResult where
  orderId : Nat
  status : OrderStatus
  fillPrice : Option Rat
  quantity : Option Rat
  deriving DecidableEq, Repr

/-- PaperExecutor.executeTrade: gate MARKET SELL orders on position, simulate
the fill by order kind, then persist: a non-crossing LIMIT order becomes one
open order row with no execution row; a fill becomes an order plus its
execution inside one transaction. Every failure is raised before any write. -/
def paperExecuteTrade (market : Market) (db : DB) (planId : String) (t : Trade) :
    Except ExecErr (DB × ExecutionResult) :=
  let gate : Except ExecErr Unit :=
    if t.side = .sell ∧ t.orderType = .market then validateSellOrder market db t else .ok ()
  match gate with
  | .error e => .error e
  | .ok _ =>
    let sim : Except ExecErr (Option FillSimulation) :=
      match t.orderType with
      | .market => (simulateMarketOrderFill market t).map some
      | .limit => simulateLimitOrderFill market db t
    match sim with
    | .error e => .error e
    | .ok none =>
      let (db1, o) := createOrder db
        { planId := planId, marketTokenId := t.marketTokenId, outcome := t.outcome,
          side := t.side, orderType := t.orderType, size := t.size, price := t.price,
          status := .open', mode := .paper }
      .ok (db1, { orderId := o.id, status := .open', fillPrice := none, quantity := none })
    | .ok (some f) =>
      let (db1, o, _e) := executeTradeTransaction db
        { planId := planId, marketTokenId := t.marketTokenId, outcome := t.outcome,
          side := t.side, orderType := t.orderType, size := t.size, price := t.price,
          status := .open', mode := .paper }
        { quantity := f.quantity, price := f.fillPrice }
      .ok (db1, { orderId := o.id, status := .filled,
                  fillPrice := some f.fillPrice, quantity := some f.quantity })

/-! ## ExecutorService -/

/-- ExecutorService.executeTrade: route by mode; live mode is rejected. -/
def serviceExecuteTrade (market : Market) (db : DB) (planId : String) (t : Trade)
    (mode : Mode) : Except ExecErr (DB × ExecutionResult) :=
  match mode with
  | .paper => paperExecuteTrade market db planId t
  | .live => .error .liveNotSupported

/-- The sequential, fail-fast loop of ExecutorService.executeTradePlan: the
first trade to fail stops the loop; earlier trades keep their committed
writes. -/
def execTrades (market : Market) (planId : String) (mode : Mode) :
    DB → List Trade → DB × Except ExecErr (List ExecutionResult)
  | db, [] => (db, .ok [])
  | db, t :: ts =>
    match serviceExecuteTrade market db planId t mode with
    | .error e => (db, .error e)
    | .ok (db1, r) =>
      match execTrades market planId mode db1 ts with
      | (db2, .error e) => (db2, .error e)
      | (db2, .ok rs) => (db2, .ok (r :: rs))

/-- ExecutorService.executeTradePlan: reject live mode up front, then execute
every trade sequentially in array order, fail-fast. -/
def executorExecuteTradePlan (market : Market) (db : DB) (plan : TradePlan) :
    DB × Except ExecErr (List ExecutionResult) :=
  if plan.mode = .live then (db, .error .liveNotSupported)
  else execTrades market plan.planId plan.mode db plan.trades

/-! ## TradeRunnerRepository -/

/-- TradeRunnerRepository.checkPlanExists: does any execution-history row
carry this plan id. -/
def checkPlanExists (db : DB) (planId : String) : Bool :=
  db.history.any fun r => r.planId = planId

/-- TradeRunnerRepository.createExecutionHistory: insert one history row. -/
def createExecutionHistory (db : DB) (r : HistoryRow) : DB :=
  { db with history := db.history ++ [r] }

/-- TradeRunnerRepository.completeExecutionHistory, as called on success:
set the matching row to completed with the summary attached. -/
def completeExecutionHistory (db : DB) (planId : String) (summary : RunSummary) : DB :=
  { db with history := db.history.map fun r =>
      if r.planId = planId then
        { r with status := .completed, summaryJson := some summary, errorMessage := none }
      else r }

/-- TradeRunnerRepository.failExecutionHistory: set the matching row to failed
with the error message attached. -/
def failExecutionHistory (db : DB) (planId : String) (e : ExecErr) : DB :=
  { db with history := db.history.map fun r =>
      if r.planId = planId then { r with status := .failed, errorMessage := some e }
      else r }

/-! ## TradeRunnerService -/

/-- The map-building loop of generateRunSummary: for each order of the plan,
on first sight of a market token + outcome key whose position exists, record
the position and add its realized profit to the running total. -/
def summaryFold (db : DB) (mode : Mode) :
    List OrderRow → List ((String × Outcome) × SummaryPosition) → Rat →
    List ((String × Outcome) × SummaryPosition) × Rat
  | [], acc, pnl => (acc, pnl)
  | o :: os, acc, pnl =>
    let key := (o.marketTokenId, o.outcome)
    if (acc.find? fun kv => kv.1 = key).isSome then summaryFold db mode os acc pnl
    else
      match calculatePosition db o.marketTokenId o.outcome mode with
      | some p =>
        let sp : SummaryPosition :=
          { marketTokenId := p.marketTokenId, outcome := p.outcome,
            netQuantity := p.netQuantity, avgPrice := p.avgPrice,
            totalCost := p.netQuantity * p.avgPrice, realizedPnL := p.realizedPnL }
        summaryFold db mode os (acc ++ [(key, sp)]) (pnl + p.realizedPnL)
      | none => summaryFold db mode os acc pnl

/-- TradeRunnerService.generateRunSummary: status counts over the orders of
the plan, positions per distinct market token + outcome, and the total
realized profit. -/
def generateRunSummary (db : DB) (plan : TradePlan) : RunSummary :=
  let orders := getOrdersByPlanId db plan.planId
  let (posList, totalPnL) := summaryFold db plan.mode orders [] 0
  { planId := plan.planId, mode := plan.mode,
    ordersPlaced := orders.length,
    ordersFilled := (orders.filter fun o => o.status = .filled).length,
    ordersPartiallyFilled := (orders.filter fun o => o.status = .partiallyFilled).length,
    ordersFailed := (orders.filter fun o => o.status = OrderStatus.failed).length,
    totalPnL := totalPnL,
    positions := posList.map (fun kv => kv.2) }

/-- The running history row inserted at the start of a run, holding the
verbatim plan payload. -/
def runningRow (plan : TradePlan) : HistoryRow :=
  { planId := plan.planId, planJson := plan, status := .running,
    summaryJson := none, errorMessage := none }

/-- TradeRunnerService.executeTradePlan: reject a plan id with any existing
history row as a duplicate; otherwise insert the running history row, execute
all trades, and finalize the history row exactly once — completed with the
run summary on success, failed with the error on failure, the error
re-thrown. -/
def runnerExecuteTradePlan (market : Market) (db : DB) (plan : TradePlan) :
    DB × Except ExecErr RunSummary :=
  if checkPlanExists db plan.planId then (db, .error (.duplicatePlan plan.planId))
  else
    let db1 := createExecutionHistory db (runningRow plan)
    match executorExecuteTradePlan market db1 plan with
    | (db2, .error e) => (failExecutionHistory db2 plan.planId e, .error e)
    | (db2, .ok _) =>
      let summary := generateRunSummary db2 plan
      (completeExecutionHistory db2 plan.planId summary, .ok summary)

/-- Modelled from the spec: the re-execution override variant of
TradeRunnerService.executeTradePlan. The version of the service accepting the
re-execution flag is not among the analysed sources; only its CLI caller and
its documentation are. Per the spec: when re-execution is explicitly
requested the idempotency check is skipped, a fresh history record is created
under a distinctly-suffixed key (a timestamp-based suffix appended to the plan
id), and every new order still carries the original plan id; without the
override the behavior is the ordinary one. -/
def runnerExecuteTradePlanReexec (market : Market) (db : DB) (plan : TradePlan)
    (reexecute : Bool) (suffix : String) : DB × Except ExecErr RunSummary :=
  if reexecute then
    let executionId := plan.planId ++ "-reexec-" ++ suffix
    let db1 := createExecutionHistory db
      { planId := executionId, planJson := plan, status := .running,
        summaryJson := none, errorMessage := none }
    match executorExecuteTradePlan market db1 plan with
    | (db2, .error e) => (failExecutionHistory db2 executionId e, .error e)
    | (db2, .ok _) =>
      let summary := generateRunSummary db2 plan
      (completeExecutionHistory db2 executionId summary, .ok summary)
  else runnerExecuteTradePlan market db plan

/-! ## Invariants -/

/-- Number of execution rows referencing an order. -/
def fillCount (db : DB) (orderId : Nat) : Nat :=
  (db.executions.filter fun e => e.orderId = orderId).length

/-- The order/fill invariant: an order is filled iff exactly one execution
references it, and an open order has none. -/
def OrderFillInv (db : DB) : Prop :=
  ∀ o ∈ db.orders,
    (o.status = .filled ↔ fillCount db o.id = 1) ∧
    (o.status = .open' → fillCount db o.id = 0)

/-- Well-formedness of the id counters: every stored order id and every
stored execution order-reference is below the next fresh order id. -/
def WF (db : DB) : Prop :=
  (∀ o ∈ db.orders, o.id < db.nextOrderId) ∧
  (∀ e ∈ db.executions, e.orderId < db.nextOrderId)

/-! ## Spec-side position formulas (from the data-model section of the spec,
for comparison with the code-side aggregation) -/

/-- Total bought quantity: the sum of BUY fill quantities. -/
def specBuyQuantity (rows : List PosRow) : Rat :=
  ((rows.filter fun r => r.side = Side.buy).map fun r => r.quantity).sum

/-- Total cost of buys: the sum of quantity times price over BUY fills. -/
def specBuyCost (rows : List PosRow) : Rat :=
  ((rows.filter fun r => r.side = Side.buy).map fun r => r.quantity * r.price).sum

/-- Total sold quantity: the sum of SELL fill quantities. -/
def specSellQuantity (rows : List PosRow) : Rat :=
  ((rows.filter fun r => r.side = Side.sell).map fun r => r.quantity).sum

/-- Total proceeds of sells: the sum of quantity times price over SELL fills. -/
def specSellProceeds (rows : List PosRow) : Rat :=
  ((rows.filter fun r => r.side = Side.sell).map fun r => r.quantity * r.price).sum

/-- Realized profit per the spec: over the closed quantity, the minimum of
total bought and total sold, proceeds minus cost pro-rated by the
closed-to-bought ratio (proceeds on the closed quantity coincide with all
sell proceeds whenever sold does not exceed bought, SELL being gated). -/
def specRealizedPnL (rows : List PosRow) : Rat :=
  let closed := min (specBuyQuantity rows) (specSellQuantity rows)
  if 0 < closed then
    specSellProceeds rows - specBuyCost rows * (closed / specBuyQuantity rows)
  else 0

/-- The calculatePosition loop accumulates exactly the four spec-side sums. -/
theorem foldl_posAccumStep (rows : List PosRow) (a : PosAccum) :
    rows.foldl posAccumStep a =
      ⟨a.buyQuantity + specBuyQuantity rows, a.buyTotal + specBuyCost rows,
       a.sellQuantity + specSellQuantity rows, a.sellTotal + specSellProceeds rows⟩ := by
  induction rows generalizing a with
  | nil => simp [specBuyQuantity, specBuyCost, specSellQuantity, specSellProceeds]
  | cons r rest ih =>
    cases hs : r.side with
    | buy =>
      simp only [List.foldl_cons, ih, posAccumStep, hs, specBuyQuantity, specBuyCost,
        specSellQuantity, specSellProceeds, List.filter_cons, hs, decide_eq_true_eq]
      simp [hs, PosAccum.mk.injEq]
      refine ⟨by ring, by ring⟩
    | sell =>
      simp only [List.foldl_cons, ih, posAccumStep, hs, specBuyQuantity, specBuyCost,
        specSellQuantity, specSellProceeds, List.filter_cons, hs, decide_eq_true_eq]
      simp [hs, PosAccum.mk.injEq]
      refine ⟨by ring, by ring⟩

/-! ## Concrete fixtures used by the testable-property instances -/

/-- The order book of the spec examples: best bid 0.40, best ask 0.45. -/
def demoMarket : Market := fun _ =>
  { bids := [⟨2/5, 100⟩], asks := [⟨9/20, 100⟩] }

/-- MARKET BUY of size 90. -/
def demoBuy90 : Trade :=
  { marketTokenId := "m", outcome := .yes, side := .buy, orderType := .market,
    size := 90, price := none }

/-- MARKET SELL of size 40. -/
def demoSell40 : Trade :=
  { marketTokenId := "m", outcome := .yes, side := .sell, orderType := .market,
    size := 40, price := none }

/-- LIMIT BUY at 0.50. -/
def demoBuyLimit50 : Trade :=
  { marketTokenId := "m", outcome := .yes, side := .buy, orderType := .limit,
    size := 90, price := some (1/2) }

/-- LIMIT BUY at 0.40. -/
def demoBuyLimit40 : Trade :=
  { marketTokenId := "m", outcome := .yes, side := .buy, orderType := .limit,
    size := 90, price := some (2/5) }

/-- LIMIT SELL at 0.50, above the best bid 0.40: does not cross. -/
def demoSellLimitAbove : Trade :=
  { marketTokenId := "m", outcome := .yes, side := .sell, orderType := .limit,
    size := 10, price := some (1/2) }

/-- Database holding one BUY fill of quantity Q at price Pb and one SELL fill
of quantity Q at price Ps for one market token, outcome and paper mode. -/
def roundTripDB (mt : String) (oc : Outcome) (Q Pb Ps : Rat) : DB :=
  { orders := [
      { id := 0, planId := "p", marketTokenId := mt, outcome := oc, side := .buy,
        orderType := .market, size := Q * Pb, price := none, status := .filled, mode := .paper },
      { id := 1, planId := "p", marketTokenId := mt, outcome := oc, side := .sell,
        orderType := .market, size := Q * Ps, price := none, status := .filled, mode := .paper }],
    executions := [
      { id := 0, orderId := 0, quantity := Q, price := Pb },
      { id := 1, orderId := 1, quantity := Q, price := Ps }],
    history := [], nextOrderId := 2, nextExecutionId := 2 }

/-- Database holding two BUY fills: 100 units at 0.40 and 50 units at 0.50. -/
def twoBuysDB : DB :=
  { orders := [
      { id := 0, planId := "p", marketTokenId := "m", outcome := .yes, side := .buy,
        orderType := .market, size := 40, price := none, status := .filled, mode := .paper },
      { id := 1, planId := "p", marketTokenId := "m", outcome := .yes, side := .buy,
        orderType := .market, size := 25, price := none, status := .filled, mode := .paper }],
    executions := [
      { id := 0, orderId := 0, quantity := 100, price := 2/5 },
      { id := 1, orderId := 1, quantity := 50, price := 1/2 }],
    history := [], nextOrderId := 2, nextExecutionId := 2 }

/-! ## Claim theorems -/

/-- C2: a MARKET BUY fills at the best (first) ask and a MARKET SELL at the
best (first) bid, with quantity equal to size divided by the fill price; an
empty opposing book side raises the no-liquidity error and produces no fill;
in particular with best ask 0.45 and best bid 0.40 a MARKET BUY of size 90
fills at 0.45 with quantity 200 and a MARKET SELL of size 40 fills at 0.40
with quantity 100. -/
theorem c2_market_order_fill :
    (∀ (market : Market) (t : Trade), t.side = .buy →
      (market t.marketTokenId).asks = [] →
      simulateMarketOrderFill market t = .error (.noAsks t.marketTokenId)) ∧
    (∀ (market : Market) (t : Trade) (l : BookLevel) (rest : List BookLevel),
      t.side = .buy → (market t.marketTokenId).asks = l :: rest →
      0 < l.price → l.price < 1 →
      simulateMarketOrderFill market t = .ok ⟨l.price, t.size / l.price⟩) ∧
    (∀ (market : Market) (t : Trade), t.side = .sell →
      (market t.marketTokenId).bids = [] →
      simulateMarketOrderFill market t = .error (.noBids t.marketTokenId)) ∧
    (∀ (market : Market) (t : Trade) (l : BookLevel) (rest : List BookLevel),
      t.side = .sell → (market t.marketTokenId).bids = l :: rest →
      0 < l.price → l.price < 1 →
      simulateMarketOrderFill market t = .ok ⟨l.price, t.size / l.price⟩) ∧
    simulateMarketOrderFill demoMarket demoBuy90 = .ok ⟨9/20, 200⟩ ∧
    simulateMarketOrderFill demoMarket demoSell40 = .ok ⟨2/5, 100⟩ := by
  refine ⟨?_, ?_, ?_, ?_, by norm_num [simulateMarketOrderFill, demoMarket, demoBuy90], by norm_num [simulateMarketOrderFill, demoMarket, demoSell40]⟩
  · intro market t hside hasks
    simp [simulateMarketOrderFill, hside, hasks]
  · intro market t l rest hside hasks hpos hlt
    simp only [simulateMarketOrderFill, hside, hasks]
    rw [if_neg]
    push_neg
    exact ⟨hpos, hlt⟩
  · intro market t hside hbids
    simp [simulateMarketOrderFill, hside, hbids]
  · intro market t l rest hside hbids hpos hlt
    simp only [simulateMarketOrderFill, hside, hbids]
    rw [if_neg]
    push_neg
    exact ⟨hpos, hlt⟩

/-- C2 witness: the general BUY fill clause applied to the concrete book. -/
theorem c2_market_order_fill_witness :
    simulateMarketOrderFill demoMarket demoBuy90 = .ok ⟨9/20, demoBuy90.size / (9/20)⟩ :=
  c2_market_order_fill.2.1 demoMarket demoBuy90 ⟨9/20, 100⟩ [] rfl rfl
    (by norm_num) (by norm_num)

/-- The order row persisted for a LIMIT order that stays open. -/
def openOrderOf (db : DB) (planId : String) (t : Trade) : OrderRow :=
  { id := db.nextOrderId, planId := planId, marketTokenId := t.marketTokenId,
    outcome := t.outcome, side := t.side, orderType := t.orderType,
    size := t.size, price := t.price, status := .open', mode := .paper }

/-- A LIMIT order whose simulation yields no fill is persisted as one order
with status open and no execution row, with no error raised. -/
theorem limit_noFill_persists (market : Market) (db : DB) (planId : String) (t : Trade)
    (htype : t.orderType = .limit)
    (hsim : simulateLimitOrderFill market db t = .ok none) :
    paperExecuteTrade market db planId t =
      .ok ({ db with orders := db.orders ++ [openOrderOf db planId t],
                     nextOrderId := db.nextOrderId + 1 },
           { orderId := db.nextOrderId, status := .open',
             fillPrice := none, quantity := none }) := by
  simp only [paperExecuteTrade, htype, hsim]
  have hgate : ¬(t.side = Side.sell ∧ OrderType.limit = OrderType.market) := by
    rintro ⟨-, h⟩; exact absurd h (by decide)
  simp [hgate, createOrder, openOrderOf]
  exact htype.symm

/-- A LIMIT SELL whose limit price is above the best bid does not cross. -/
theorem limit_sell_noCross (market : Market) (db : DB) (t : Trade) (lp : Rat)
    (l : BookLevel) (rest : List BookLevel)
    (hside : t.side = .sell) (hprice : t.price = some lp)
    (hbids : (market t.marketTokenId).bids = l :: rest) (hgt : l.price < lp) :
    simulateLimitOrderFill market db t = .ok none := by
  have : ¬(lp ≤ l.price) := not_le.mpr hgt
  simp [simulateLimitOrderFill, hprice, hside, hbids, this]

/-- C3: a LIMIT BUY crosses iff its limit price is at least the best ask and
then fills at the best ask, never at the limit price; a LIMIT SELL crosses iff
its limit price is at most the best bid and then fills at the best bid; a
non-crossing LIMIT order raises no error and is persisted as one order with
status open and no execution row; concretely with best ask 0.45, a LIMIT BUY
at 0.50 fills at 0.45 and a LIMIT BUY at 0.40 stays open. -/
theorem c3_limit_order_crossing :
    (∀ (market : Market) (db : DB) (t : Trade) (lp : Rat) (l : BookLevel)
       (rest : List BookLevel),
      t.side = .buy → t.price = some lp → (market t.marketTokenId).asks = l :: rest →
      0 < l.price → l.price < 1 →
      (lp ≥ l.price →
        simulateLimitOrderFill market db t = .ok (some ⟨l.price, t.size / l.price⟩)) ∧
      (lp < l.price → simulateLimitOrderFill market db t = .ok none)) ∧
    (∀ (market : Market) (db : DB) (t : Trade) (lp : Rat) (l : BookLevel)
       (rest : List BookLevel),
      t.side = .sell → t.price = some lp → (market t.marketTokenId).bids = l :: rest →
      0 < l.price → l.price < 1 →
      ((lp ≤ l.price →
        (validateSellPosition db t.marketTokenId t.outcome .paper (t.size / l.price)).valid =
          true →
        simulateLimitOrderFill market db t = .ok (some ⟨l.price, t.size / l.price⟩)) ∧
      (lp > l.price → simulateLimitOrderFill market db t = .ok none))) ∧
    (∀ (market : Market) (db : DB) (planId : String) (t : Trade),
      t.orderType = .limit → simulateLimitOrderFill market db t = .ok none →
      paperExecuteTrade market db planId t =
        .ok ({ db with orders := db.orders ++ [openOrderOf db planId t],
                       nextOrderId := db.nextOrderId + 1 },
             { orderId := db.nextOrderId, status := .open',
               fillPrice := none, quantity := none })) ∧
    simulateLimitOrderFill demoMarket DB.empty demoBuyLimit50 = .ok (some ⟨9/20, 200⟩) ∧
    paperExecuteTrade demoMarket DB.empty "p" demoBuyLimit40 =
      .ok ({ DB.empty with orders := [openOrderOf DB.empty "p" demoBuyLimit40],
                           nextOrderId := 1 },
           { orderId := 0, status := .open', fillPrice := none, quantity := none }) := by
  refine ⟨?_, ?_, ?_, ?_, ?_⟩
  · intro market db t lp l rest hside hprice hasks hpos hlt
    have hnot : ¬(l.price ≤ 0 ∨ 1 ≤ l.price) := by push_neg; exact ⟨hpos, hlt⟩
    constructor
    · intro hge
      simp [simulateLimitOrderFill, hprice, hside, hasks, hge, hnot]
    · intro hltc
      have : ¬(l.price ≤ lp) := not_le.mpr hltc
      simp [simulateLimitOrderFill, hprice, hside, hasks, this]
  · intro market db t lp l rest hside hprice hbids hpos hlt
    have hnot : ¬(l.price ≤ 0 ∨ 1 ≤ l.price) := by push_neg; exact ⟨hpos, hlt⟩
    constructor
    · intro hle hvalid
      simp [simulateLimitOrderFill, hprice, hside, hbids, hle, hnot, hvalid]
    · intro hgt
      have : ¬(lp ≤ l.price) := not_le.mpr hgt
      simp [simulateLimitOrderFill, hprice, hside, hbids, this]
  · intro market db planId t htype hsim
    exact limit_noFill_persists market db planId t htype hsim
  · norm_num [simulateLimitOrderFill, demoMarket, demoBuyLimit50]
    simp
  · norm_num [paperExecuteTrade, simulateLimitOrderFill, demoMarket, demoBuyLimit40,
      createOrder, openOrderOf, DB.empty]
    simp

/-- C3 witness: the no-cross persistence clause applied to the concrete
LIMIT BUY at 0.40 against best ask 0.45. -/
theorem c3_limit_order_crossing_witness :
    paperExecuteTrade demoMarket DB.empty "p" demoBuyLimit40 =
      .ok ({ DB.empty with orders := DB.empty.orders ++ [openOrderOf DB.empty "p" demoBuyLimit40],
                           nextOrderId := DB.empty.nextOrderId + 1 },
           { orderId := DB.empty.nextOrderId, status := .open',
             fillPrice := none, quantity := none }) :=
  c3_limit_order_crossing.2.2.1 demoMarket DB.empty "p" demoBuyLimit40 rfl
    (by norm_num [simulateLimitOrderFill, demoMarket, demoBuyLimit40])

/-- The SELL gate is invalid, with an insufficient-position message, whenever
no position exists or the net quantity is zero, negative, or below the
required quantity. -/
theorem validateSellPosition_invalid (db : DB) (mt : String) (oc : Outcome) (mode : Mode)
    (rq : Rat)
    (h : calculatePosition db mt oc mode = none ∨
      ∃ p, calculatePosition db mt oc mode = some p ∧
        (p.netQuantity ≤ 0 ∨ p.netQuantity < rq)) :
    (validateSellPosition db mt oc mode rq).valid = false ∧
    ∀ d : ExecErr,
      (((validateSellPosition db mt oc mode rq).message.getD d).isInsufficientPosition = true) := by
  rcases h with hnone | ⟨p, hp, hcase⟩
  · simp [validateSellPosition, hnone, ExecErr.isInsufficientPosition]
  · rcases hcase with hle | hlt
    · simp [validateSellPosition, hp, if_pos hle, ExecErr.isInsufficientPosition]
    · rcases le_or_lt p.netQuantity 0 with h0 | h0
      · simp [validateSellPosition, hp, if_pos h0, ExecErr.isInsufficientPosition]
      · simp [validateSellPosition, hp, if_neg (not_le.mpr h0), if_pos hlt,
          ExecErr.isInsufficientPosition]

/-- C4 counterexample: against best bid 0.40, a LIMIT SELL at 0.50 with zero
prior fills does not fail and creates an order row: the database has no
position for the token, yet executeTrade succeeds and persists one (open)
order, where the claim requires an insufficient-position failure and no order
row. -/
theorem c4_counterexample :
    calculatePosition DB.empty "m" Outcome.yes Mode.paper = none ∧
    paperExecuteTrade demoMarket DB.empty "p" demoSellLimitAbove =
      .ok ({ DB.empty with orders := [openOrderOf DB.empty "p" demoSellLimitAbove],
                           nextOrderId := 1 },
           { orderId := 0, status := .open', fillPrice := none, quantity := none }) := by
  constructor
  · rfl
  · have := limit_noFill_persists demoMarket DB.empty "p" demoSellLimitAbove rfl
      (limit_sell_noCross demoMarket DB.empty demoSellLimitAbove (1/2) ⟨2/5, 100⟩ []
        rfl rfl rfl (by norm_num))
    simpa [DB.empty] using this

/-- C4 amended: a MARKET SELL, and a LIMIT SELL whose limit price crosses the
best bid, fail with an insufficient-position error and create no order row
when the position is absent or its net quantity is below the required
quantity (size divided by the best bid); a LIMIT SELL that does not cross is
instead persisted as an open order with no position validation. -/
theorem c4_sell_gating :
    (∀ (market : Market) (db : DB) (planId : String) (t : Trade) (l : BookLevel)
       (rest : List BookLevel),
      t.side = .sell → t.orderType = .market →
      (market t.marketTokenId).bids = l :: rest →
      (calculatePosition db t.marketTokenId t.outcome .paper = none ∨
        ∃ p, calculatePosition db t.marketTokenId t.outcome .paper = some p ∧
          (p.netQuantity ≤ 0 ∨ p.netQuantity < t.size / l.price)) →
      ∃ e, paperExecuteTrade market db planId t = .error e ∧
        e.isInsufficientPosition = true) ∧
    (∀ (market : Market) (db : DB) (planId : String) (t : Trade) (lp : Rat) (l : BookLevel)
       (rest : List BookLevel),
      t.side = .sell → t.orderType = .limit → t.price = some lp →
      (market t.marketTokenId).bids = l :: rest →
      0 < l.price → l.price < 1 → lp ≤ l.price →
      (calculatePosition db t.marketTokenId t.outcome .paper = none ∨
        ∃ p, calculatePosition db t.marketTokenId t.outcome .paper = some p ∧
          (p.netQuantity ≤ 0 ∨ p.netQuantity < t.size / l.price)) →
      ∃ e, paperExecuteTrade market db planId t = .error e ∧
        e.isInsufficientPosition = true) ∧
    (∀ (market : Market) (db : DB) (planId : String) (t : Trade) (lp : Rat) (l : BookLevel)
       (rest : List BookLevel),
      t.side = .sell → t.orderType = .limit → t.price = some lp →
      (market t.marketTokenId).bids = l :: rest → l.price < lp →
      paperExecuteTrade market db planId t =
        .ok ({ db with orders := db.orders ++ [openOrderOf db planId t],
                       nextOrderId := db.nextOrderId + 1 },
             { orderId := db.nextOrderId, status := .open',
               fillPrice := none, quantity := none })) := by
  refine ⟨?_, ?_, ?_⟩
  · intro market db planId t l rest hside htype hbids hpos
    obtain ⟨hvalid, hmsg⟩ :=
      validateSellPosition_invalid db t.marketTokenId t.outcome .paper (t.size / l.price) hpos
    refine ⟨(validateSellPosition db t.marketTokenId t.outcome .paper
        (t.size / l.price)).message.getD
        (.insufficientPosition (t.size / l.price)
          (validateSellPosition db t.marketTokenId t.outcome .paper
            (t.size / l.price)).currentQuantity), ?_, hmsg _⟩
    simp only [paperExecuteTrade, hside, htype, and_self, if_true, validateSellOrder, hbids]
    rw [if_neg (by simp [hvalid])]
  · intro market db planId t lp l rest hside htype hprice hbids hp0 hp1 hle hpos
    obtain ⟨hvalid, hmsg⟩ :=
      validateSellPosition_invalid db t.marketTokenId t.outcome .paper (t.size / l.price) hpos
    refine ⟨(validateSellPosition db t.marketTokenId t.outcome .paper
        (t.size / l.price)).message.getD
        (.insufficientPosition (t.size / l.price)
          (validateSellPosition db t.marketTokenId t.outcome .paper
            (t.size / l.price)).currentQuantity), ?_, hmsg _⟩
    have hgate : ¬(t.side = Side.sell ∧ t.orderType = OrderType.market) := by
      rintro ⟨-, h⟩; rw [htype] at h; exact absurd h (by decide)
    have hnot : ¬(l.price ≤ 0 ∨ 1 ≤ l.price) := by push_neg; exact ⟨hp0, hp1⟩
    simp only [paperExecuteTrade, hgate, if_false, htype]
    simp only [simulateLimitOrderFill, hprice, hside, hbids, if_pos hle]
    rw [if_neg hnot]
    simp [hvalid]
  · intro market db planId t lp l rest hside htype hprice hbids hgt
    exact limit_noFill_persists market db planId t htype
      (limit_sell_noCross market db t lp l rest hside hprice hbids hgt)

/-- C4 witness: the MARKET SELL clause applied to an empty database against
the concrete book. -/
theorem c4_sell_gating_witness :
    ∃ e, paperExecuteTrade demoMarket DB.empty "p" demoSell40 = .error e ∧
      e.isInsufficientPosition = true :=
  c4_sell_gating.1 demoMarket DB.empty "p" demoSell40 ⟨2/5, 100⟩ [] rfl rfl rfl
    (Or.inl rfl)

/-- Characterization of the position aggregation on a non-empty row list, in
terms of the spec-side sums. -/
theorem positionFromRows_eq (mt : String) (oc : Outcome) (rows : List PosRow)
    (hne : rows ≠ []) :
    positionFromRows mt oc rows =
      some { marketTokenId := mt, outcome := oc,
             netQuantity := specBuyQuantity rows - specSellQuantity rows,
             avgPrice :=
               if specBuyQuantity rows - specSellQuantity rows ≠ 0 then
                 (if specBuyQuantity rows - specSellQuantity rows > 0 then
                    specBuyCost rows / specBuyQuantity rows
                  else specSellProceeds rows / specSellQuantity rows)
               else
                 (if specBuyQuantity rows > 0 then
                    specBuyCost rows / specBuyQuantity rows
                  else 0),
             realizedPnL := specRealizedPnL rows } := by
  simp only [positionFromRows, if_neg hne, foldl_posAccumStep, zero_add, specRealizedPnL]

/-- C5: for every non-empty set of fills of one market token + outcome + mode,
calculatePosition returns net quantity equal to total bought minus total sold,
average price the quantity-weighted buy-side average when net long or fully
closed, and realized profit over the closed quantity as proceeds minus cost
pro-rated by the closed-to-bought ratio; in particular buying Q at Pb then
selling Q at Ps realizes Q times (Ps minus Pb) with net quantity 0, and buying
100 at 0.40 then 50 at 0.50 nets 150 at average price 13/30. -/
theorem c5_calculate_position :
    (∀ (db : DB) (mt : String) (oc : Outcome) (mode : Mode),
      positionRows db mt oc mode ≠ [] →
      ∃ p, calculatePosition db mt oc mode = some p ∧
        p.netQuantity =
          specBuyQuantity (positionRows db mt oc mode) -
            specSellQuantity (positionRows db mt oc mode) ∧
        (0 < p.netQuantity →
          p.avgPrice =
            specBuyCost (positionRows db mt oc mode) /
              specBuyQuantity (positionRows db mt oc mode)) ∧
        (p.netQuantity = 0 → 0 < specBuyQuantity (positionRows db mt oc mode) →
          p.avgPrice =
            specBuyCost (positionRows db mt oc mode) /
              specBuyQuantity (positionRows db mt oc mode)) ∧
        p.realizedPnL = specRealizedPnL (positionRows db mt oc mode)) ∧
    (∀ (mt : String) (oc : Outcome) (Q Pb Ps : Rat), 0 < Q →
      ∃ p, calculatePosition (roundTripDB mt oc Q Pb Ps) mt oc .paper = some p ∧
        p.netQuantity = 0 ∧ p.realizedPnL = Q * (Ps - Pb)) ∧
    (∃ p, calculatePosition twoBuysDB "m" .yes .paper = some p ∧
      p.netQuantity = 150 ∧ p.avgPrice = 13/30) := by
  refine ⟨?_, ?_, ?_⟩
  · intro db mt oc mode hne
    refine ⟨_, positionFromRows_eq mt oc (positionRows db mt oc mode) hne, rfl, ?_, ?_, rfl⟩
    · intro h
      simp only at h ⊢
      rw [if_pos h.ne', if_pos h]
    · intro h0 hbq
      simp only at h0 ⊢
      rw [if_neg (by simpa using h0), if_pos hbq]
  · intro mt oc Q Pb Ps hQ
    have hrows : positionRows (roundTripDB mt oc Q Pb Ps) mt oc .paper =
        [⟨.buy, Q, Pb⟩, ⟨.sell, Q, Ps⟩] := by
      simp [positionRows, roundTripDB]
    have hne : ([⟨.buy, Q, Pb⟩, ⟨.sell, Q, Ps⟩] : List PosRow) ≠ [] := by simp
    simp only [calculatePosition, hrows, positionFromRows_eq mt oc _ hne]
    refine ⟨_, rfl, ?_, ?_⟩
    · show specBuyQuantity _ - specSellQuantity _ = 0
      simp [specBuyQuantity, specSellQuantity]
    · show specRealizedPnL _ = Q * (Ps - Pb)
      have hbq : specBuyQuantity [⟨.buy, Q, Pb⟩, ⟨.sell, Q, Ps⟩] = Q := by
        simp [specBuyQuantity]
      have hsq : specSellQuantity [⟨.buy, Q, Pb⟩, ⟨.sell, Q, Ps⟩] = Q := by
        simp [specSellQuantity]
      have hbc : specBuyCost [⟨.buy, Q, Pb⟩, ⟨.sell, Q, Ps⟩] = Q * Pb := by
        simp [specBuyCost]
      have hsp : specSellProceeds [⟨.buy, Q, Pb⟩, ⟨.sell, Q, Ps⟩] = Q * Ps := by
        simp [specSellProceeds]
      simp only [specRealizedPnL, hbq, hsq, hbc, hsp, min_self, if_pos hQ]
      rw [div_self hQ.ne']
      ring
  · have hrows : positionRows twoBuysDB "m" .yes .paper =
        [⟨.buy, 100, 2/5⟩, ⟨.buy, 50, 1/2⟩] := by
      simp [positionRows, twoBuysDB]
    have hne : ([⟨.buy, 100, 2/5⟩, ⟨.buy, 50, 1/2⟩] : List PosRow) ≠ [] := by simp
    simp only [calculatePosition, hrows, positionFromRows_eq "m" .yes _ hne]
    refine ⟨_, rfl, ?_, ?_⟩
    · show specBuyQuantity _ - specSellQuantity _ = 150
      simp [specBuyQuantity, specSellQuantity, List.filter]
      norm_num
    · show (if _ then _ else _) = (13 : Rat)/30
      simp [specBuyQuantity, specSellQuantity, specBuyCost, List.filter]
      norm_num

/-- C5 witness: the round-trip clause with quantity 5 bought at 0.40 and sold
at 0.60 realizes exactly 1. -/
theorem c5_calculate_position_witness :
    ∃ p, calculatePosition (roundTripDB "m" Outcome.yes 5 (2/5) (3/5)) "m" Outcome.yes
        Mode.paper = some p ∧
      p.netQuantity = 0 ∧ p.realizedPnL = 5 * ((3:Rat)/5 - 2/5) :=
  c5_calculate_position.2.1 "m" Outcome.yes 5 (2/5) (3/5) (by norm_num)

/-! ## Helper lemmas for the orchestration claims -/

/-- Updating rows keyed by a plan id leaves a fresh-keyed prefix untouched and
rewrites the single appended row. -/
theorem map_update_fresh (l : List HistoryRow) (pid : String) (f : HistoryRow → HistoryRow)
    (hall : ∀ r ∈ l, r.planId ≠ pid) (row : HistoryRow) (hrow : row.planId = pid) :
    (l ++ [row]).map (fun r => if r.planId = pid then f r else r) = l ++ [f row] := by
  rw [List.map_append]
  congr 1
  · conv_rhs => rw [← List.map_id l]
    exact List.map_congr_left fun r hr => if_neg (hall r hr)
  · simp [hrow]

/-- A false plan-existence check means no history row carries the plan id. -/
theorem checkPlanExists_false (db : DB) (pid : String)
    (h : checkPlanExists db pid = false) : ∀ r ∈ db.history, r.planId ≠ pid := by
  intro r hr
  simpa [checkPlanExists, List.any_eq_true] using fun hcontra => by
    simp [checkPlanExists, List.any_eq_true] at h
    exact h r hr hcontra

/-- Explicit form of the success path of the order+execution transaction on a
well-formed database: the final state appends the order (already filled) and
its execution, and the returned order row is the open row as inserted. -/
theorem executeTradeTransaction_eq (db : DB) (od : NewOrderData) (ed : NewExecutionData)
    (hwf : WF db) :
    executeTradeTransaction db od ed =
      ({ db with
           orders := db.orders ++
             [{ id := db.nextOrderId, planId := od.planId,
                marketTokenId := od.marketTokenId, outcome := od.outcome, side := od.side,
                orderType := od.orderType, size := od.size, price := od.price,
                status := .filled, mode := od.mode }],
           executions := db.executions ++
             [{ id := db.nextExecutionId, orderId := db.nextOrderId,
                quantity := ed.quantity, price := ed.price }],
           nextOrderId := db.nextOrderId + 1,
           nextExecutionId := db.nextExecutionId + 1 },
       { id := db.nextOrderId, planId := od.planId, marketTokenId := od.marketTokenId,
         outcome := od.outcome, side := od.side, orderType := od.orderType,
         size := od.size, price := od.price, status := .open', mode := od.mode },
       { id := db.nextExecutionId, orderId := db.nextOrderId,
         quantity := ed.quantity, price := ed.price }) := by
  have hmap : db.orders.map
      (fun o => if o.id = db.nextOrderId then { o with status := OrderStatus.filled } else o) =
      db.orders := by
    conv_rhs => rw [← List.map_id db.orders]
    exact List.map_congr_left fun o ho => if_neg (Nat.ne_of_lt (hwf.1 o ho))
  simp [executeTradeTransaction, createOrder, updateOrderStatus, List.map_append, hmap]

/-- A successful per-trade execution on a well-formed database preserves
well-formedness and the order/fill invariant, leaves the history untouched,
and appends exactly one order carrying the given plan id, with at most one
execution row referencing it. -/
theorem paperExecuteTrade_ok (market : Market) (db : DB) (planId : String) (t : Trade)
    (db' : DB) (r : ExecutionResult) (hwf : WF db) (hinv : OrderFillInv db)
    (h : paperExecuteTrade market db planId t = .ok (db', r)) :
    db'.history = db.history ∧ db'.nextOrderId = db.nextOrderId + 1 ∧ WF db' ∧
    OrderFillInv db' ∧
    ∃ o : OrderRow, o.planId = planId ∧ o.id = db.nextOrderId ∧
      db'.orders = db.orders ++ [o] ∧
      (db'.executions = db.executions ∨
        ∃ ex : ExecutionRow, ex.orderId = o.id ∧ db'.executions = db.executions ++ [ex]) := by
  have hcount0 : ∀ i, db.nextOrderId ≤ i →
      (db.executions.filter fun e => e.orderId = i) = [] := by
    intro i hi
    refine List.filter_eq_nil_iff.mpr fun e he => ?_
    simp only [decide_eq_true_eq]
    exact fun hc => absurd (hc ▸ hwf.2 e he) (not_lt.mpr hi)
  simp only [paperExecuteTrade] at h
  split at h
  · exact absurd h (by simp)
  · split at h
    · exact absurd h (by simp)
    · -- LIMIT order that stays open: one open order row, executions untouched
      rw [Except.ok.injEq, Prod.mk.injEq] at h
      obtain ⟨hdb, -⟩ := h
      subst hdb
      refine ⟨rfl, rfl, ⟨?_, ?_⟩, ?_, ?_⟩
      · intro o ho
        simp only [createOrder] at ho ⊢
        rcases List.mem_append.mp ho with ho | ho
        · exact Nat.lt_succ_of_lt (hwf.1 o ho)
        · simp only [List.mem_singleton] at ho
          simp [ho]
      · intro e he
        exact Nat.lt_succ_of_lt (hwf.2 e he)
      · intro o ho
        simp only [createOrder] at ho
        rcases List.mem_append.mp ho with ho | ho
        · have := hinv o ho
          simpa [fillCount, createOrder] using this
        · simp only [List.mem_singleton] at ho
          subst ho
          constructor
          · constructor
            · intro hst
              exact absurd hst (by simp)
            · intro hc
              have h01 : (0 : Nat) = 1 := by
                rw [← hc]
                simp [fillCount, createOrder, hcount0 db.nextOrderId le_rfl]
              exact absurd h01 (by simp)
          · intro _
            simp [fillCount, createOrder, hcount0 db.nextOrderId le_rfl]
      · exact ⟨(createOrder db
          { planId := planId, marketTokenId := t.marketTokenId, outcome := t.outcome,
            side := t.side, orderType := t.orderType, size := t.size, price := t.price,
            status := .open', mode := .paper }).2, rfl, rfl, rfl, Or.inl rfl⟩
    · -- fill: the transaction appends the filled order and its execution
      rw [executeTradeTransaction_eq db _ _ hwf] at h
      rw [Except.ok.injEq, Prod.mk.injEq] at h
      obtain ⟨hdb, -⟩ := h
      subst hdb
      refine ⟨rfl, rfl, ⟨?_, ?_⟩, ?_, ?_⟩
      · intro o ho
        rcases List.mem_append.mp ho with ho | ho
        · exact Nat.lt_succ_of_lt (hwf.1 o ho)
        · simp only [List.mem_singleton] at ho
          simp [ho]
      · intro e he
        rcases List.mem_append.mp he with he | he
        · exact Nat.lt_succ_of_lt (hwf.2 e he)
        · simp only [List.mem_singleton] at he
          simp [he]
      · intro o ho
        simp only at ho
        rcases List.mem_append.mp ho with ho | ho
        · have hne : db.nextOrderId ≠ o.id := Nat.ne_of_gt (hwf.1 o ho)
          have := hinv o ho
          simpa [fillCount, List.filter_append, hne] using this
        · simp only [List.mem_singleton] at ho
          subst ho
          constructor
          · constructor
            · intro _
              simp [fillCount, List.filter_append, hcount0 db.nextOrderId le_rfl]
            · intro _
              rfl
          · intro hst
            exact absurd hst (by simp)
      · exact ⟨_, rfl, rfl, rfl, Or.inr ⟨_, rfl, rfl⟩⟩

/-- A per-trade execution never touches the execution-history table. -/
theorem paperExecuteTrade_history (market : Market) (db : DB) (planId : String) (t : Trade)
    (db' : DB) (r : ExecutionResult)
    (h : paperExecuteTrade market db planId t = .ok (db', r)) : db'.history = db.history := by
  simp only [paperExecuteTrade] at h
  split at h
  · exact absurd h (by simp)
  · split at h
    · exact absurd h (by simp)
    · rw [Except.ok.injEq, Prod.mk.injEq] at h
      obtain ⟨hdb, -⟩ := h
      subst hdb
      rfl
    · rw [Except.ok.injEq, Prod.mk.injEq] at h
      obtain ⟨hdb, -⟩ := h
      subst hdb
      rfl

/-- Routing a trade by mode never touches the execution-history table. -/
theorem serviceExecuteTrade_history (market : Market) (db : DB) (pid : String) (t : Trade)
    (mode : Mode) (db1 : DB) (r : ExecutionResult)
    (h : serviceExecuteTrade market db pid t mode = .ok (db1, r)) :
    db1.history = db.history := by
  cases mode
  · exact paperExecuteTrade_history market db pid t db1 r h
  · exact absurd h (by simp [serviceExecuteTrade])

/-- The sequential trade loop never touches the execution-history table. -/
theorem execTrades_history (market : Market) (pid : String) (mode : Mode) :
    ∀ (ts : List Trade) (db : DB),
      ((execTrades market pid mode db ts).1).history = db.history := by
  intro ts
  induction ts with
  | nil => intro db; rfl
  | cons t ts ih =>
    intro db
    simp only [execTrades]
    rcases hs : serviceExecuteTrade market db pid t mode with e | ⟨db1, r⟩
    · rfl
    · have hh := serviceExecuteTrade_history market db pid t mode db1 r hs
      rcases hr : execTrades market pid mode db1 ts with ⟨db2, res2⟩
      have h2 : db2.history = db1.history := by
        have := ih db1
        rw [hr] at this
        exact this
      cases res2 <;> simp [hr, h2, hh]

/-- The executor service never touches the execution-history table. -/
theorem executorExecuteTradePlan_history (market : Market) (db : DB) (plan : TradePlan) :
    ((executorExecuteTradePlan market db plan).1).history = db.history := by
  unfold executorExecuteTradePlan
  split
  · rfl
  · exact execTrades_history market plan.planId plan.mode plan.trades db

/-- Facts about a successfully routed trade, by mode. -/
theorem serviceExecuteTrade_ok (market : Market) (db : DB) (pid : String) (t : Trade)
    (mode : Mode) (db' : DB) (r : ExecutionResult) (hwf : WF db) (hinv : OrderFillInv db)
    (h : serviceExecuteTrade market db pid t mode = .ok (db', r)) :
    db'.history = db.history ∧ db'.nextOrderId = db.nextOrderId + 1 ∧ WF db' ∧
    OrderFillInv db' ∧
    ∃ o : OrderRow, o.planId = pid ∧ o.id = db.nextOrderId ∧
      db'.orders = db.orders ++ [o] ∧
      (db'.executions = db.executions ∨
        ∃ ex : ExecutionRow, ex.orderId = o.id ∧ db'.executions = db.executions ++ [ex]) := by
  cases mode
  · exact paperExecuteTrade_ok market db pid t db' r hwf hinv h
  · exact absurd h (by simp [serviceExecuteTrade])

/-- The sequential trade loop preserves well-formedness and the order/fill
invariant, and only appends orders carrying the given plan id. -/
theorem execTrades_facts (market : Market) (pid : String) (mode : Mode) :
    ∀ (ts : List Trade) (db : DB), WF db → OrderFillInv db →
      WF (execTrades market pid mode db ts).1 ∧
      OrderFillInv (execTrades market pid mode db ts).1 ∧
      ∃ newOrders, (execTrades market pid mode db ts).1.orders = db.orders ++ newOrders ∧
        ∀ o ∈ newOrders, o.planId = pid := by
  intro ts
  induction ts with
  | nil =>
    intro db hwf hinv
    exact ⟨hwf, hinv, [], by simp [execTrades], by simp⟩
  | cons t ts ih =>
    intro db hwf hinv
    simp only [execTrades]
    rcases hs : serviceExecuteTrade market db pid t mode with e | ⟨db1, r⟩
    · exact ⟨hwf, hinv, [], by simp, by simp⟩
    · obtain ⟨-, -, hwf1, hinv1, o, hopid, -, horders, -⟩ :=
        serviceExecuteTrade_ok market db pid t mode db1 r hwf hinv hs
      rcases hr : execTrades market pid mode db1 ts with ⟨db2, res2⟩
      obtain ⟨hwf2, hinv2, new2, horders2, hpids2⟩ := by
        have := ih db1 hwf1 hinv1
        rw [hr] at this
        exact this
      have hord : db2.orders = db.orders ++ ([o] ++ new2) := by
        rw [horders2, horders, List.append_assoc]
      dsimp only
      rw [hr]
      cases res2 <;>
        exact ⟨hwf2, hinv2, [o] ++ new2, hord, by
          intro x hx
          rcases List.mem_append.mp hx with hx | hx
          · rw [List.mem_singleton.mp hx]; exact hopid
          · exact hpids2 x hx⟩

/-- The executor service preserves well-formedness and the order/fill
invariant, and only appends orders carrying the plan id of the plan. -/
theorem executorExecuteTradePlan_facts (market : Market) (db : DB) (plan : TradePlan)
    (hwf : WF db) (hinv : OrderFillInv db) :
    WF (executorExecuteTradePlan market db plan).1 ∧
    OrderFillInv (executorExecuteTradePlan market db plan).1 ∧
    ∃ newOrders, (executorExecuteTradePlan market db plan).1.orders =
        db.orders ++ newOrders ∧
      ∀ o ∈ newOrders, o.planId = plan.planId := by
  unfold executorExecuteTradePlan
  split
  · exact ⟨hwf, hinv, [], by simp, by simp⟩
  · exact execTrades_facts market plan.planId plan.mode plan.trades db hwf hinv

/-- A plan reusing the id of the concrete demo plan below. -/
def demoPlan : TradePlan := { planId := "P1", mode := .paper, trades := [demoBuy90] }

/-- A live-mode plan. -/
def livePlan : TradePlan := { planId := "P2", mode := .live, trades := [demoBuy90] }

/-- A database whose history already holds a record for plan P1. -/
def dupDB : DB :=
  { DB.empty with history :=
      [{ planId := "P1", planJson := demoPlan, status := .completed,
         summaryJson := none, errorMessage := none }] }

/-- C1: a plan id with any existing execution-history record is rejected as a
duplicate before any write: the database is returned unchanged — zero new
orders and zero new history rows — and the duplicate-plan error is thrown. -/
theorem c1_duplicate_plan_rejected :
    ∀ (market : Market) (db : DB) (plan : TradePlan),
      checkPlanExists db plan.planId = true →
      runnerExecuteTradePlan market db plan = (db, .error (.duplicatePlan plan.planId)) := by
  intro market db plan h
  simp [runnerExecuteTradePlan, h]

/-- C1 witness: a second submission of plan P1 against a database already
holding its history record. -/
theorem c1_duplicate_plan_rejected_witness :
    runnerExecuteTradePlan demoMarket dupDB demoPlan =
      (dupDB, .error (.duplicatePlan demoPlan.planId)) :=
  c1_duplicate_plan_rejected demoMarket dupDB demoPlan rfl

/-- C10: a fresh live-mode plan is rejected by the executor service before any
trade runs: no order or execution row is created, and the history record ends
failed carrying the live-unsupported error, which is re-thrown. -/
theorem c10_live_mode_rejected :
    ∀ (market : Market) (db : DB) (plan : TradePlan),
      plan.mode = .live → checkPlanExists db plan.planId = false →
      runnerExecuteTradePlan market db plan =
        ({ db with history := db.history ++
            [{ planId := plan.planId, planJson := plan, status := .failed,
               summaryJson := none, errorMessage := some .liveNotSupported }] },
         .error .liveNotSupported) ∧
      (runnerExecuteTradePlan market db plan).1.orders = db.orders ∧
      (runnerExecuteTradePlan market db plan).1.executions = db.executions := by
  intro market db plan hmode hfresh
  have hall := checkPlanExists_false db plan.planId hfresh
  have hmap := map_update_fresh db.history plan.planId
      (fun r =>
        { r with status := HistoryStatus.failed,
                 errorMessage := some ExecErr.liveNotSupported })
      hall (runningRow plan) rfl
  have hmain : runnerExecuteTradePlan market db plan =
      ({ db with history := db.history ++
          [{ planId := plan.planId, planJson := plan, status := .failed,
             summaryJson := none, errorMessage := some .liveNotSupported }] },
       .error .liveNotSupported) := by
    simp only [runnerExecuteTradePlan, hfresh, Bool.false_eq_true, if_false,
      executorExecuteTradePlan, hmode, if_true, failExecutionHistory,
      createExecutionHistory]
    rw [Prod.mk.injEq]
    refine ⟨?_, rfl⟩
    have hmap2 := hmap
    simp only at hmap2
    congr 1
  exact ⟨hmain, by rw [hmain], by rw [hmain]⟩

/-- C10 witness: a concrete live plan on the empty database creates no
orders. -/
theorem c10_live_mode_rejected_witness :
    (runnerExecuteTradePlan demoMarket DB.empty livePlan).1.orders = DB.empty.orders :=
  (c10_live_mode_rejected demoMarket DB.empty livePlan rfl rfl).2.1

/-- On a fresh plan id, the runner terminates in exactly one of two ways: the
error path, appending the history row finalized as failed with the error, or
the success path, appending the history row finalized as completed with the
summary. -/
theorem runner_fresh_cases (market : Market) (db : DB) (plan : TradePlan)
    (hfresh : checkPlanExists db plan.planId = false) :
    (∃ e, (runnerExecuteTradePlan market db plan).2 = .error e ∧
      (runnerExecuteTradePlan market db plan).1.history =
        db.history ++ [{ planId := plan.planId, planJson := plan, status := .failed,
                         summaryJson := none, errorMessage := some e }]) ∨
    (∃ s, (runnerExecuteTradePlan market db plan).2 = .ok s ∧
      (runnerExecuteTradePlan market db plan).1.history =
        db.history ++ [{ planId := plan.planId, planJson := plan, status := .completed,
                         summaryJson := some s, errorMessage := none }]) := by
  have hall := checkPlanExists_false db plan.planId hfresh
  rcases hE : executorExecuteTradePlan market (createExecutionHistory db (runningRow plan))
      plan with ⟨db2, res2⟩
  have hh2 : db2.history = db.history ++ [runningRow plan] := by
    have h := executorExecuteTradePlan_history market
      (createExecutionHistory db (runningRow plan)) plan
    rw [hE] at h
    exact h
  cases res2 with
  | ok rs =>
    have hrun : runnerExecuteTradePlan market db plan =
        (completeExecutionHistory db2 plan.planId (generateRunSummary db2 plan),
         .ok (generateRunSummary db2 plan)) := by
      simp only [runnerExecuteTradePlan, hfresh, Bool.false_eq_true, if_false]
      rw [hE]
    refine Or.inr ⟨generateRunSummary db2 plan, by rw [hrun], ?_⟩
    rw [hrun]
    show (completeExecutionHistory db2 plan.planId (generateRunSummary db2 plan)).history = _
    have hmap := map_update_fresh db.history plan.planId
        (fun r =>
          { r with status := HistoryStatus.completed,
                   summaryJson := some (generateRunSummary db2 plan),
                   errorMessage := none })
        hall (runningRow plan) rfl
    simp only [completeExecutionHistory, hh2]
    simp only at hmap
    rw [hmap]
    rfl
  | error e =>
    have hrun : runnerExecuteTradePlan market db plan =
        (failExecutionHistory db2 plan.planId e, .error e) := by
      simp only [runnerExecuteTradePlan, hfresh, Bool.false_eq_true, if_false]
      rw [hE]
    refine Or.inl ⟨e, by rw [hrun], ?_⟩
    rw [hrun]
    show (failExecutionHistory db2 plan.planId e).history = _
    have hmap := map_update_fresh db.history plan.planId
        (fun r =>
          { r with status := HistoryStatus.failed, errorMessage := some e })
        hall (runningRow plan) rfl
    simp only [failExecutionHistory, hh2]
    simp only at hmap
    rw [hmap]
    rfl

/-- C9: on a fresh plan id the history record is created with status running
in the very state the trade loop runs against, the trade loop itself never
touches the history table, and at the end exactly one history row exists for
the plan id, finalized exactly once to completed with the summary on success
or failed with the error on failure. -/
theorem c9_history_lifecycle :
    ∀ (market : Market) (db : DB) (plan : TradePlan),
      checkPlanExists db plan.planId = false →
      (∃ r ∈ (createExecutionHistory db (runningRow plan)).history,
          r.planId = plan.planId ∧ r.status = .running) ∧
      (∀ (db' : DB) (pid : String) (mode : Mode) (ts : List Trade),
          ((execTrades market pid mode db' ts).1).history = db'.history) ∧
      ((runnerExecuteTradePlan market db plan).1.history.filter
          (fun r => r.planId = plan.planId)).length = 1 ∧
      (∀ r ∈ (runnerExecuteTradePlan market db plan).1.history, r.planId = plan.planId →
        (∀ s, (runnerExecuteTradePlan market db plan).2 = .ok s →
          r.status = .completed ∧ r.summaryJson = some s) ∧
        (∀ e, (runnerExecuteTradePlan market db plan).2 = .error e →
          r.status = .failed ∧ r.errorMessage = some e)) := by
  intro market db plan hfresh
  have hall := checkPlanExists_false db plan.planId hfresh
  have hfilter : db.history.filter (fun r => r.planId = plan.planId) = [] :=
    List.filter_eq_nil_iff.mpr fun r hr => by simp [hall r hr]
  refine ⟨⟨runningRow plan, by simp [createExecutionHistory, runningRow], rfl, rfl⟩,
    (fun db' pid mode ts => execTrades_history market pid mode ts db'), ?_, ?_⟩
  · rcases runner_fresh_cases market db plan hfresh with ⟨e, -, hh⟩ | ⟨s, -, hh⟩ <;>
      simp [hh, List.filter_append, hfilter]
  · intro r hr hrid
    rcases runner_fresh_cases market db plan hfresh with ⟨e, hres, hh⟩ | ⟨s, hres, hh⟩
    · rw [hh] at hr
      rcases List.mem_append.mp hr with hr | hr
      · exact absurd hrid (hall r hr)
      · simp only [List.mem_singleton] at hr
        subst hr
        constructor
        · intro s hs
          rw [hres] at hs
          exact absurd hs (by simp)
        · intro e' he
          rw [hres] at he
          rw [Except.error.injEq] at he
          subst he
          exact ⟨rfl, rfl⟩
    · rw [hh] at hr
      rcases List.mem_append.mp hr with hr | hr
      · exact absurd hrid (hall r hr)
      · simp only [List.mem_singleton] at hr
        subst hr
        constructor
        · intro s' hs
          rw [hres] at hs
          rw [Except.ok.injEq] at hs
          subst hs
          exact ⟨rfl, rfl⟩
        · intro e' he
          rw [hres] at he
          exact absurd he (by simp)

/-- C9 witness: after running the concrete one-trade plan on the empty
database, exactly one history row exists for its plan id. -/
theorem c9_history_lifecycle_witness :
    ((runnerExecuteTradePlan demoMarket DB.empty demoPlan).1.history.filter
        (fun r => r.planId = demoPlan.planId)).length = 1 :=
  (c9_history_lifecycle demoMarket DB.empty demoPlan rfl).2.2.1

/-- Splitting the sequential trade loop after a successful prefix. -/
theorem execTrades_append (market : Market) (pid : String) (mode : Mode) :
    ∀ (pre : List Trade) (db dbPre : DB) (rs : List ExecutionResult) (ts : List Trade),
      execTrades market pid mode db pre = (dbPre, .ok rs) →
      execTrades market pid mode db (pre ++ ts) =
        ((execTrades market pid mode dbPre ts).1,
         match (execTrades market pid mode dbPre ts).2 with
         | .ok rs2 => .ok (rs ++ rs2)
         | .error e2 => .error e2) := by
  intro pre
  induction pre with
  | nil =>
    intro db dbPre rs ts h
    simp only [execTrades] at h
    rw [Prod.mk.injEq, Except.ok.injEq] at h
    obtain ⟨hdb, hrs⟩ := h
    subst hdb
    subst hrs
    simp only [List.nil_append]
    rcases hts : execTrades market pid mode db ts with ⟨d2, r2⟩
    cases r2 <;> simp [hts]
  | cons t pre' ih =>
    intro db dbPre rs ts h
    simp only [execTrades, List.cons_append] at h ⊢
    rcases hs : serviceExecuteTrade market db pid t mode with e | ⟨db1, r⟩
    · simp only [hs] at h
      exact absurd h (by simp)
    · simp only [hs] at h ⊢
      rcases hr : execTrades market pid mode db1 pre' with ⟨db2, res2⟩
      rw [hr] at h
      cases res2 with
      | error e2 => exact absurd h (by simp)
      | ok rs' =>
        simp only [Prod.mk.injEq, Except.ok.injEq] at h
        obtain ⟨hdb, hrs⟩ := h
        subst hdb
        subst hrs
        simp only [List.append_eq]
        rw [ih db1 db2 rs' ts hr]
        rcases hts : execTrades market pid mode db2 ts with ⟨d3, r3⟩
        cases r3 <;> simp [hts]

/-- C6: for a fresh paper plan whose trades split as a succeeding prefix, a
failing trade and a remainder, the run throws that trade's error, the final
orders and executions are exactly those persisted by the prefix (earlier
trades keep their committed writes, no later trade leaves any), and the
history row ends failed carrying that error. -/
theorem c6_fail_fast :
    ∀ (market : Market) (db : DB) (plan : TradePlan) (pre post : List Trade) (t : Trade)
      (dbPre : DB) (rs : List ExecutionResult) (e : ExecErr),
      plan.mode = .paper →
      plan.trades = pre ++ t :: post →
      checkPlanExists db plan.planId = false →
      execTrades market plan.planId .paper (createExecutionHistory db (runningRow plan)) pre
        = (dbPre, .ok rs) →
      serviceExecuteTrade market dbPre plan.planId t .paper = .error e →
      (runnerExecuteTradePlan market db plan).2 = .error e ∧
      (runnerExecuteTradePlan market db plan).1.orders = dbPre.orders ∧
      (runnerExecuteTradePlan market db plan).1.executions = dbPre.executions ∧
      (runnerExecuteTradePlan market db plan).1.history =
        db.history ++ [{ planId := plan.planId, planJson := plan, status := .failed,
                         summaryJson := none, errorMessage := some e }] := by
  intro market db plan pre post t dbPre rs e hmode htr hfresh hpre hfail
  have hall := checkPlanExists_false db plan.planId hfresh
  have hExec : execTrades market plan.planId .paper
      (createExecutionHistory db (runningRow plan)) plan.trades = (dbPre, .error e) := by
    rw [htr, execTrades_append market plan.planId .paper pre _ dbPre rs (t :: post) hpre]
    simp [execTrades, hfail]
  have hrun : runnerExecuteTradePlan market db plan =
      (failExecutionHistory dbPre plan.planId e, .error e) := by
    simp only [runnerExecuteTradePlan, hfresh, Bool.false_eq_true, if_false,
      executorExecuteTradePlan]
    rw [if_neg (by rw [hmode]; simp), hmode, hExec]
  have hh : dbPre.history = db.history ++ [runningRow plan] := by
    have h := execTrades_history market plan.planId .paper pre
      (createExecutionHistory db (runningRow plan))
    rw [hpre] at h
    exact h
  refine ⟨by rw [hrun], by rw [hrun]; rfl, by rw [hrun]; rfl, ?_⟩
  rw [hrun]
  show (failExecutionHistory dbPre plan.planId e).history = _
  have hmap := map_update_fresh db.history plan.planId
      (fun r => { r with status := HistoryStatus.failed, errorMessage := some e })
      hall (runningRow plan) rfl
  simp only [failExecutionHistory, hh]
  simp only at hmap
  rw [hmap]
  rfl

/-- MARKET SELL of size 100: against best bid 0.40 this requires 250 tokens. -/
def demoSell100 : Trade :=
  { marketTokenId := "m", outcome := .yes, side := .sell, orderType := .market,
    size := 100, price := none }

/-- A three-trade plan whose middle trade fails on insufficient position. -/
def failPlan : TradePlan :=
  { planId := "P3", mode := .paper, trades := [demoBuy90, demoSell100, demoBuy90] }

/-- The database state after the first trade of the failing plan. -/
def failDbPre : DB :=
  { orders := [{ id := 0, planId := "P3", marketTokenId := "m", outcome := .yes,
                 side := .buy, orderType := .market, size := 90, price := none,
                 status := .filled, mode := .paper }],
    executions := [{ id := 0, orderId := 0, quantity := 200, price := 9/20 }],
    history := [runningRow failPlan],
    nextOrderId := 1, nextExecutionId := 1 }

/-- The first trade of the failing plan runs successfully, producing the
intermediate state above. -/
theorem failPlan_step1 :
    execTrades demoMarket "P3" .paper
      (createExecutionHistory DB.empty (runningRow failPlan)) [demoBuy90] =
      (failDbPre,
       .ok [{ orderId := 0, status := .filled, fillPrice := some (9/20),
              quantity := some 200 }]) := by
  norm_num [execTrades, serviceExecuteTrade, paperExecuteTrade,
    simulateMarketOrderFill, executeTradeTransaction, createOrder, updateOrderStatus,
    createExecutionHistory, demoMarket, demoBuy90, DB.empty, failDbPre, runningRow,
    failPlan, Except.map]
  simp

/-- The second trade of the failing plan fails: it requires 250 tokens while
only 200 are held. -/
theorem failPlan_step2 :
    serviceExecuteTrade demoMarket failDbPre "P3" demoSell100 .paper =
      .error (.insufficientPosition 250 200) := by
  norm_num [serviceExecuteTrade, paperExecuteTrade, validateSellOrder,
    validateSellPosition, calculatePosition, positionRows, positionFromRows,
    posAccumStep, demoMarket, demoSell100, failDbPre, List.filterMap, List.find?]

/-- C6 witness: in the three-trade plan the second trade fails with its
specific insufficient-position error, which the run re-throws. -/
theorem c6_fail_fast_witness :
    (runnerExecuteTradePlan demoMarket DB.empty failPlan).2 =
      .error (.insufficientPosition 250 200) :=
  (c6_fail_fast demoMarket DB.empty failPlan [demoBuy90] [demoBuy90] demoSell100 failDbPre
    [{ orderId := 0, status := .filled, fillPrice := some (9/20), quantity := some 200 }]
    (.insufficientPosition 250 200) rfl rfl rfl failPlan_step1 failPlan_step2).1

/-- C7: the order/fill invariant — filled iff exactly one execution row, open
implies none — is preserved by every operation of the core: a transaction
failure at any of the three statements leaves neither row; the successful
transaction inserts the order open, links the execution to it and ends with
the order filled with exactly one execution; per-trade execution and the full
runner preserve the invariant. -/
theorem c7_order_fill_invariant :
    (∀ (db : DB) (od : NewOrderData) (ed : NewExecutionData) (s : TxStep),
      executeTradeTransactionTx db od ed (some s) = (db, none)) ∧
    (∀ (db : DB) (od : NewOrderData) (ed : NewExecutionData), WF db →
      (executeTradeTransaction db od ed).2.1.status = .open' ∧
      (executeTradeTransaction db od ed).2.2.orderId =
        (executeTradeTransaction db od ed).2.1.id ∧
      (∃ o' ∈ (executeTradeTransaction db od ed).1.orders,
        o'.id = (executeTradeTransaction db od ed).2.1.id ∧ o'.status = .filled) ∧
      fillCount (executeTradeTransaction db od ed).1
        (executeTradeTransaction db od ed).2.1.id = 1) ∧
    (∀ (market : Market) (db : DB) (planId : String) (t : Trade) (db' : DB)
       (r : ExecutionResult), WF db → OrderFillInv db →
      paperExecuteTrade market db planId t = .ok (db', r) → WF db' ∧ OrderFillInv db') ∧
    (∀ (market : Market) (db : DB) (plan : TradePlan), WF db → OrderFillInv db →
      WF (runnerExecuteTradePlan market db plan).1 ∧
      OrderFillInv (runnerExecuteTradePlan market db plan).1) := by
  refine ⟨fun db od ed s => rfl, ?_, ?_, ?_⟩
  · intro db od ed hwf
    rw [executeTradeTransaction_eq db od ed hwf]
    refine ⟨rfl, rfl, ⟨_, List.mem_append_right _ (List.mem_singleton_self _), rfl, rfl⟩, ?_⟩
    have hnil : (db.executions.filter fun e => e.orderId = db.nextOrderId) = [] := by
      refine List.filter_eq_nil_iff.mpr fun e he => ?_
      simp only [decide_eq_true_eq]
      exact Nat.ne_of_lt (hwf.2 e he)
    simp [fillCount, List.filter_append, hnil]
  · intro market db planId t db' r hwf hinv h
    obtain ⟨-, -, hwf', hinv', -⟩ := paperExecuteTrade_ok market db planId t db' r hwf hinv h
    exact ⟨hwf', hinv'⟩
  · intro market db plan hwf hinv
    by_cases hc : checkPlanExists db plan.planId = true
    · have hd : runnerExecuteTradePlan market db plan =
          (db, .error (.duplicatePlan plan.planId)) := by
        simp [runnerExecuteTradePlan, hc]
      rw [hd]
      exact ⟨hwf, hinv⟩
    · rw [Bool.not_eq_true] at hc
      have hwf1 : WF (createExecutionHistory db (runningRow plan)) := hwf
      have hinv1 : OrderFillInv (createExecutionHistory db (runningRow plan)) := hinv
      obtain ⟨hwf2, hinv2, -⟩ := executorExecuteTradePlan_facts market
        (createExecutionHistory db (runningRow plan)) plan hwf1 hinv1
      rcases hE : executorExecuteTradePlan market
          (createExecutionHistory db (runningRow plan)) plan with ⟨db2, res2⟩
      rw [hE] at hwf2 hinv2
      cases res2 with
      | error e =>
        have hd : runnerExecuteTradePlan market db plan =
            (failExecutionHistory db2 plan.planId e, .error e) := by
          simp only [runnerExecuteTradePlan, hc, Bool.false_eq_true, if_false]
          rw [hE]
        rw [hd]
        exact ⟨hwf2, hinv2⟩
      | ok rs =>
        have hd : runnerExecuteTradePlan market db plan =
            (completeExecutionHistory db2 plan.planId (generateRunSummary db2 plan),
             .ok (generateRunSummary db2 plan)) := by
          simp only [runnerExecuteTradePlan, hc, Bool.false_eq_true, if_false]
          rw [hE]
        rw [hd]
        exact ⟨hwf2, hinv2⟩

/-- C7 witness: the invariant-preservation clause for the full runner applied
to the concrete one-trade plan on the empty database. -/
theorem c7_order_fill_invariant_witness :
    WF (runnerExecuteTradePlan demoMarket DB.empty demoPlan).1 ∧
    OrderFillInv (runnerExecuteTradePlan demoMarket DB.empty demoPlan).1 :=
  c7_order_fill_invariant.2.2.2 demoMarket DB.empty demoPlan
    (by constructor <;> simp [DB.empty]) (by intro o ho; simp [DB.empty] at ho)

/-- The SELL gate reports either nothing, a missing position, or an
insufficient position. -/
theorem validateSellPosition_message_shape (db : DB) (mt : String) (oc : Outcome)
    (mode : Mode) (rq : Rat) :
    (validateSellPosition db mt oc mode rq).message = none ∨
    (validateSellPosition db mt oc mode rq).message = some (.noPosition mt) ∨
    ∃ a b, (validateSellPosition db mt oc mode rq).message =
      some (.insufficientPosition a b) := by
  unfold validateSellPosition
  cases calculatePosition db mt oc mode with
  | none => simp
  | some p =>
    by_cases h0 : p.netQuantity ≤ 0
    · simp [h0]
    · by_cases h1 : p.netQuantity < rq <;> simp [h0, h1]

/-- The error minted from the SELL gate message is never the duplicate-plan
error. -/
theorem gate_message_not_dup (db : DB) (mt : String) (oc : Outcome) (mode : Mode)
    (rq a b : Rat) :
    ∀ pid, (validateSellPosition db mt oc mode rq).message.getD
      (.insufficientPosition a b) ≠ ExecErr.duplicatePlan pid := by
  intro pid
  rcases validateSellPosition_message_shape db mt oc mode rq with h | h | ⟨x, y, h⟩ <;>
    simp [h]

/-- validateSellOrder never raises the duplicate-plan error. -/
theorem validateSellOrder_error_shape (market : Market) (db : DB) (t : Trade) (e : ExecErr)
    (h : validateSellOrder market db t = .error e) :
    ∀ pid, e ≠ ExecErr.duplicatePlan pid := by
  intro pid hdup
  subst hdup
  simp only [validateSellOrder] at h
  rcases hm : (market t.marketTokenId).bids with - | ⟨l, rest⟩ <;> rw [hm] at h
  · simp at h
  · by_cases hv : (validateSellPosition db t.marketTokenId t.outcome .paper
        (t.size / l.price)).valid = true
    · simp [hv] at h
    · rw [Bool.not_eq_true] at hv
      simp only [hv, Bool.false_eq_true, if_false, Except.error.injEq] at h
      exact gate_message_not_dup db t.marketTokenId t.outcome .paper
        (t.size / l.price) _ _ pid h

/-- The MARKET fill simulation never raises the duplicate-plan error. -/
theorem simulateMarketOrderFill_error_shape (market : Market) (t : Trade) (e : ExecErr)
    (h : simulateMarketOrderFill market t = .error e) :
    ∀ pid, e ≠ ExecErr.duplicatePlan pid := by
  intro pid hdup
  subst hdup
  simp only [simulateMarketOrderFill] at h
  split at h <;> split at h <;> (try split at h) <;> simp_all

/-- The LIMIT fill simulation never raises the duplicate-plan error. -/
theorem simulateLimitOrderFill_error_shape (market : Market) (db : DB) (t : Trade)
    (e : ExecErr) (h : simulateLimitOrderFill market db t = .error e) :
    ∀ pid, e ≠ ExecErr.duplicatePlan pid := by
  intro pid hdup
  subst hdup
  simp only [simulateLimitOrderFill] at h
  rcases hp : t.price with - | lp <;> rw [hp] at h
  · simp at h
  · rcases hside : t.side with - | - <;> rw [hside] at h
    · rcases hm : (market t.marketTokenId).asks with - | ⟨l, rest⟩ <;> rw [hm] at h
      · simp at h
      · by_cases hcross : l.price ≤ lp
        · simp only [ge_iff_le, hcross, if_true] at h
          by_cases hsan : l.price ≤ 0 ∨ l.price ≥ 1
          · simp [hsan] at h
          · simp [hsan] at h
        · simp [ge_iff_le, hcross] at h
    · rcases hm : (market t.marketTokenId).bids with - | ⟨l, rest⟩ <;> rw [hm] at h
      · simp at h
      · by_cases hcross : lp ≤ l.price
        · simp only [hcross, if_true] at h
          by_cases hsan : l.price ≤ 0 ∨ l.price ≥ 1
          · simp [hsan] at h
          · simp only [hsan, if_false] at h
            by_cases hv : (validateSellPosition db t.marketTokenId t.outcome .paper
                (t.size / l.price)).valid = true
            · simp [hv] at h
            · rw [Bool.not_eq_true] at hv
              simp only [hv, Bool.false_eq_true, if_false] at h
              simp only [Except.error.injEq] at h
              exact gate_message_not_dup db t.marketTokenId t.outcome .paper
                (t.size / l.price) _ _ pid h
        · simp [hcross] at h

/-- A per-trade execution never raises the duplicate-plan error. -/
theorem paperExecuteTrade_error_shape (market : Market) (db : DB) (planId : String)
    (t : Trade) (e : ExecErr) (h : paperExecuteTrade market db planId t = .error e) :
    ∀ pid, e ≠ ExecErr.duplicatePlan pid := by
  intro pid hdup
  subst hdup
  simp only [paperExecuteTrade] at h
  split at h
  · rename_i heq
    rw [Except.error.injEq] at h
    subst h
    split at heq
    · exact validateSellOrder_error_shape market db t _ heq pid rfl
    · simp at heq
  · split at h
    · rename_i heq
      rw [Except.error.injEq] at h
      subst h
      split at heq
      · rcases hm : simulateMarketOrderFill market t with e2 | f <;> rw [hm] at heq
        · simp only [Except.map, Except.error.injEq] at heq
          subst heq
          exact simulateMarketOrderFill_error_shape market t _ hm pid rfl
        · simp [Except.map] at heq
      · exact simulateLimitOrderFill_error_shape market db t _ heq pid rfl
    · simp at h
    · simp at h

/-- Routing a trade never raises the duplicate-plan error. -/
theorem serviceExecuteTrade_error_shape (market : Market) (db : DB) (pid0 : String)
    (t : Trade) (mode : Mode) (e : ExecErr)
    (h : serviceExecuteTrade market db pid0 t mode = .error e) :
    ∀ pid, e ≠ ExecErr.duplicatePlan pid := by
  cases mode
  · exact paperExecuteTrade_error_shape market db pid0 t e h
  · simp only [serviceExecuteTrade, Except.error.injEq] at h
    subst h
    intro pid hdup
    exact absurd hdup (by simp)

/-- The sequential trade loop never raises the duplicate-plan error. -/
theorem execTrades_error_shape (market : Market) (pid0 : String) (mode : Mode) :
    ∀ (ts : List Trade) (db : DB) (e : ExecErr),
      (execTrades market pid0 mode db ts).2 = .error e →
      ∀ pid, e ≠ ExecErr.duplicatePlan pid := by
  intro ts
  induction ts with
  | nil => intro db e h; simp [execTrades] at h
  | cons t ts ih =>
    intro db e h
    simp only [execTrades] at h
    rcases hs : serviceExecuteTrade market db pid0 t mode with e1 | ⟨db1, r⟩
    · rw [hs] at h
      simp only [Except.error.injEq] at h
      subst h
      exact serviceExecuteTrade_error_shape market db pid0 t mode e1 hs
    · rw [hs] at h
      simp only at h
      rcases hr : execTrades market pid0 mode db1 ts with ⟨db2, res2⟩
      rw [hr] at h
      cases res2 with
      | error e2 =>
        simp only [Except.error.injEq] at h
        subst h
        have := ih db1 e2
        rw [hr] at this
        exact this rfl
      | ok rs => simp at h

/-- The executor service never raises the duplicate-plan error. -/
theorem executorExecuteTradePlan_error_shape (market : Market) (db : DB) (plan : TradePlan)
    (e : ExecErr) (h : (executorExecuteTradePlan market db plan).2 = .error e) :
    ∀ pid, e ≠ ExecErr.duplicatePlan pid := by
  unfold executorExecuteTradePlan at h
  split at h
  · simp only [Except.error.injEq] at h
    subst h
    intro pid hdup
    exact absurd hdup (by simp)
  · exact execTrades_error_shape market plan.planId plan.mode plan.trades db e h

/-- The suffixed re-execution key differs from the plan id. -/
theorem reexec_key_ne (pid suffix : String) : pid ++ "-reexec-" ++ suffix ≠ pid := by
  intro hcontra
  have hlen := congrArg String.length hcontra
  rw [String.length_append, String.length_append] at hlen
  have h8 : String.length "-reexec-" = 8 := by decide
  omega

/-- The fresh history row of a re-execution, keyed by the suffixed id. -/
def reexecRow (plan : TradePlan) (suffix : String) : HistoryRow :=
  { planId := plan.planId ++ "-reexec-" ++ suffix, planJson := plan, status := .running,
    summaryJson := none, errorMessage := none }

/-- C8: with the re-execution override, a plan whose id already has a history
record still executes: the run never fails with the duplicate-plan error, one
fresh history row is appended under the distinctly-suffixed key — never
reusing the existing key — and every order appended by the re-run carries the
original plan id. -/
theorem c8_reexecution :
    ∀ (market : Market) (db : DB) (plan : TradePlan) (suffix : String),
      WF db → OrderFillInv db →
      checkPlanExists db plan.planId = true →
      checkPlanExists db (plan.planId ++ "-reexec-" ++ suffix) = false →
      (∃ row, (runnerExecuteTradePlanReexec market db plan true suffix).1.history =
          db.history ++ [row] ∧
        row.planId = plan.planId ++ "-reexec-" ++ suffix ∧
        row.planId ≠ plan.planId ∧ row.planJson = plan) ∧
      (∃ newOrders, (runnerExecuteTradePlanReexec market db plan true suffix).1.orders =
          db.orders ++ newOrders ∧ ∀ o ∈ newOrders, o.planId = plan.planId) ∧
      (∀ e, (runnerExecuteTradePlanReexec market db plan true suffix).2 = .error e →
        e ≠ .duplicatePlan plan.planId) := by
  intro market db plan suffix hwf hinv hex hfreshS
  have hall := checkPlanExists_false db (plan.planId ++ "-reexec-" ++ suffix) hfreshS
  have hwf1 : WF (createExecutionHistory db (reexecRow plan suffix)) := hwf
  have hinv1 : OrderFillInv (createExecutionHistory db (reexecRow plan suffix)) := hinv
  obtain ⟨-, -, newOrders, hord, hpids⟩ := executorExecuteTradePlan_facts market
    (createExecutionHistory db (reexecRow plan suffix)) plan hwf1 hinv1
  rcases hE : executorExecuteTradePlan market
      (createExecutionHistory db (reexecRow plan suffix)) plan with ⟨db2, res2⟩
  rw [hE] at hord
  have hord' : db2.orders = db.orders ++ newOrders := hord
  have hh2 : db2.history = db.history ++ [reexecRow plan suffix] := by
    have h := executorExecuteTradePlan_history market
      (createExecutionHistory db (reexecRow plan suffix)) plan
    rw [hE] at h
    exact h
  cases res2 with
  | error e =>
    have hrun : runnerExecuteTradePlanReexec market db plan true suffix =
        (failExecutionHistory db2 (plan.planId ++ "-reexec-" ++ suffix) e, .error e) := by
      simp only [runnerExecuteTradePlanReexec, if_true]
      rw [show createExecutionHistory db
        { planId := plan.planId ++ "-reexec-" ++ suffix, planJson := plan,
          status := HistoryStatus.running, summaryJson := none, errorMessage := none } =
        createExecutionHistory db (reexecRow plan suffix) from rfl, hE]
    have hmap := map_update_fresh db.history (plan.planId ++ "-reexec-" ++ suffix)
        (fun r => { r with status := HistoryStatus.failed, errorMessage := some e })
        hall (reexecRow plan suffix) rfl
    refine ⟨⟨{ planId := plan.planId ++ "-reexec-" ++ suffix, planJson := plan,
               status := HistoryStatus.failed, summaryJson := none,
               errorMessage := some e }, ?_, rfl, reexec_key_ne plan.planId suffix, rfl⟩,
      ⟨newOrders, ?_, hpids⟩, ?_⟩
    · rw [hrun]
      show (failExecutionHistory db2 (plan.planId ++ "-reexec-" ++ suffix) e).history = _
      simp only [failExecutionHistory, hh2]
      simp only at hmap
      rw [hmap]
      rfl
    · rw [hrun]
      exact hord'
    · intro e' he'
      rw [hrun] at he'
      rw [Except.error.injEq] at he'
      subst he'
      exact executorExecuteTradePlan_error_shape market
        (createExecutionHistory db (reexecRow plan suffix)) plan e (by rw [hE])
        plan.planId
  | ok rs =>
    have hrun : runnerExecuteTradePlanReexec market db plan true suffix =
        (completeExecutionHistory db2 (plan.planId ++ "-reexec-" ++ suffix)
           (generateRunSummary db2 plan),
         .ok (generateRunSummary db2 plan)) := by
      simp only [runnerExecuteTradePlanReexec, if_true]
      rw [show createExecutionHistory db
        { planId := plan.planId ++ "-reexec-" ++ suffix, planJson := plan,
          status := HistoryStatus.running, summaryJson := none, errorMessage := none } =
        createExecutionHistory db (reexecRow plan suffix) from rfl, hE]
    have hmap := map_update_fresh db.history (plan.planId ++ "-reexec-" ++ suffix)
        (fun r =>
          { r with status := HistoryStatus.completed,
                   summaryJson := some (generateRunSummary db2 plan),
                   errorMessage := none })
        hall (reexecRow plan suffix) rfl
    refine ⟨⟨{ planId := plan.planId ++ "-reexec-" ++ suffix, planJson := plan,
               status := HistoryStatus.completed,
               summaryJson := some (generateRunSummary db2 plan), errorMessage := none },
        ?_, rfl, reexec_key_ne plan.planId suffix, rfl⟩,
      ⟨newOrders, ?_, hpids⟩, ?_⟩
    · rw [hrun]
      show (completeExecutionHistory db2 (plan.planId ++ "-reexec-" ++ suffix)
        (generateRunSummary db2 plan)).history = _
      simp only [completeExecutionHistory, hh2]
      simp only at hmap
      rw [hmap]
      rfl
    · rw [hrun]
      exact hord'
    · intro e' he'
      rw [hrun] at he'
      exact absurd he' (by simp)

/-- C8 witness: re-executing plan P1 against a database already holding its
record appends exactly the fresh suffixed history row, reusing no key. -/
theorem c8_reexecution_witness :
    ∃ row, (runnerExecuteTradePlanReexec demoMarket dupDB demoPlan true "t").1.history =
        dupDB.history ++ [row] ∧
      row.planId = demoPlan.planId ++ "-reexec-" ++ "t" ∧
      row.planId ≠ demoPlan.planId ∧ row.planJson = demoPlan :=
  (c8_reexecution demoMarket dupDB demoPlan "t"
    (by constructor <;> simp [dupDB, DB.empty])
    (by intro o ho; simp [dupDB, DB.empty] at ho)
    rfl (by decide)).1

end BetterOMS
